import Mathlib

/-!
Verification development for the `presupuesto_flask` budgeting application
(`app.py`).  The Python source is shallowly embedded: `datetime.date` becomes
the `Date` structure below (with the Python library's validity range,
years 1–9999, and date construction failing outside it, mirroring
`ValueError`), SQLAlchemy rows become Lean structures, `Decimal`/`float`
amounts become exact rationals `ℚ`, and each aggregation route becomes a pure
function over lists of rows.  Dictionaries (`dict` / `defaultdict`) are
embedded as association lists updated in place.
-/

namespace Presupuesto

/-! ### Python string primitives

The source compares category-type strings with `str.lower`, `str.strip` and
`<` (code-point lexicographic order, which SQLite's default `ORDER BY` also
uses for the ASCII data at hand).  `String.toLower` from core Lean does not
reduce in the kernel, so the embedding carries its own executable ASCII
versions, which agree with Python on the ASCII strings this application
stores. -/

/-- ASCII lower-casing of one character (models `str.lower` on ASCII data). -/
def lowerChar (c : Char) : Char :=
  if 'A' ≤ c ∧ c ≤ 'Z' then Char.ofNat (c.toNat + 32) else c

/-- Models Python `str.lower` (ASCII fragment). -/
def sLower (s : String) : String := ⟨s.data.map lowerChar⟩

/-- Whitespace recognised by the embedding's `strip`. -/
def isSpaceChar (c : Char) : Bool := c = ' ' || c = '\t' || c = '\n' || c = '\r'

/-- Models Python `str.strip`. -/
def sTrim (s : String) : String :=
  ⟨((s.data.dropWhile isSpaceChar).reverse.dropWhile isSpaceChar).reverse⟩

/-- Lexicographic comparison of code-point sequences. -/
def lexLe : List ℕ → List ℕ → Bool
  | [], _ => true
  | _ :: _, [] => false
  | a :: as, b :: bs => if a < b then true else if b < a then false else lexLe as bs

/-- Code points of a string. -/
def strKey (s : String) : List ℕ := s.data.map Char.toNat

/-- Models Python string `<=` (code-point lexicographic order). -/
def sLe (a b : String) : Bool := lexLe (strKey a) (strKey b)

/-! ### Calendar dates (`datetime.date`)

Python dates are triples `(year, month, day)` with `1 ≤ year ≤ 9999` and a
day valid for the Gregorian month; `date(...)` raises `ValueError` otherwise,
which the embedding renders as `Option`.  Comparison of valid dates is
lexicographic on the components, exactly as in Python. -/

structure Date where
  year : ℕ
  month : ℕ
  day : ℕ
deriving DecidableEq

/-- Gregorian leap-year test. -/
def isLeap (y : ℕ) : Prop := (y % 4 = 0 ∧ y % 100 ≠ 0) ∨ y % 400 = 0

instance (y : ℕ) : Decidable (isLeap y) := by unfold isLeap; infer_instance

/-- Length of a month in the proleptic Gregorian calendar. -/
def daysInMonth (y m : ℕ) : ℕ :=
  if m = 2 then (if isLeap y then 29 else 28)
  else if m = 4 ∨ m = 6 ∨ m = 9 ∨ m = 11 then 30
  else 31

/-- The dates `datetime.date` can represent. -/
def Valid (d : Date) : Prop :=
  1 ≤ d.year ∧ d.year ≤ 9999 ∧ 1 ≤ d.month ∧ d.month ≤ 12 ∧
    1 ≤ d.day ∧ d.day ≤ daysInMonth d.year d.month

instance (d : Date) : Decidable (Valid d) := by unfold Valid; infer_instance

/-- Python `date <` (lexicographic on year, month, day). -/
def dateLt (a b : Date) : Prop :=
  a.year < b.year ∨ (a.year = b.year ∧
    (a.month < b.month ∨ (a.month = b.month ∧ a.day < b.day)))

instance (a b : Date) : Decidable (dateLt a b) := by unfold dateLt; infer_instance

/-- Python `date <=`. -/
def dateLe (a b : Date) : Prop := dateLt a b ∨ a = b

instance (a b : Date) : Decidable (dateLe a b) := by unfold dateLe; infer_instance

/-- The `date(y, m, d)` constructor: `none` models `ValueError`. -/
def pyDate (y m d : ℕ) : Option Date :=
  if Valid ⟨y, m, d⟩ then some ⟨y, m, d⟩ else none

/-- `CYCLE_START_DAY = 25`, the app-wide constant. -/
def CYCLE_START_DAY : ℕ := 25

/-- `cycle_bounds(ref, start_day)` from `app.py` lines 112–118: the
inclusive start and exclusive end of the 25th-to-25th cycle containing
`ref`, with each `date(...)` construction fallible exactly as in Python. -/
def cycle_bounds (ref : Date) (start_day : ℕ := CYCLE_START_DAY) :
    Option (Date × Date) :=
  (pyDate ref.year ref.month start_day).bind fun start0 =>
    (if dateLt ref start0 then
        if start0.month = 1 then pyDate (start0.year - 1) 12 start_day
        else pyDate start0.year (start0.month - 1) start_day
      else some start0).bind fun start =>
      (if start.month = 12 then pyDate (start.year + 1) 1 start_day
        else pyDate start.year (start.month + 1) start_day).bind fun stop =>
        some (start, stop)

/-- The date exactly one calendar month after `d` (same day-of-month),
the shape of the rollover arithmetic in `cycle_bounds`. -/
def monthAfter (d : Date) : Date :=
  if d.month = 12 then ⟨d.year + 1, 1, d.day⟩ else ⟨d.year, d.month + 1, d.day⟩

/-- Successor day, i.e. Python `d + timedelta(days=1)` (ignoring the year-9999
ceiling, which call sites rule out separately). -/
def nextDay (d : Date) : Date :=
  if d.day < daysInMonth d.year d.month then ⟨d.year, d.month, d.day + 1⟩
  else if d.month < 12 then ⟨d.year, d.month + 1, 1⟩
  else ⟨d.year + 1, 1, 1⟩

/-- Days of year `y` strictly before month `m`. -/
def monthOffset : ℕ → ℕ
  | 0 => 0 | 1 => 0 | 2 => 31 | 3 => 59 | 4 => 90 | 5 => 120 | 6 => 151
  | 7 => 181 | 8 => 212 | 9 => 243 | 10 => 273 | 11 => 304 | 12 => 334
  | _ + 13 => 365

/-- Days of year `y` before month `m`, accounting for the leap day. -/
def daysBefore (y m : ℕ) : ℕ :=
  monthOffset m + (if 3 ≤ m ∧ isLeap y then 1 else 0)

/-- Number of leap years in `[1, y]`. -/
def leapsBefore (y : ℕ) : ℤ :=
  ((y / 4 : ℕ) : ℤ) - ((y / 100 : ℕ) : ℤ) + ((y / 400 : ℕ) : ℤ)

/-- Proleptic-Gregorian ordinal of a date (Python `date.toordinal`):
`0001-01-01` is day 1. -/
def toOrdinal (d : Date) : ℤ :=
  365 * ((d.year : ℤ) - 1) + leapsBefore (d.year - 1) +
    (daysBefore d.year d.month : ℤ) + (d.day : ℤ)

/-- The largest representable date. -/
def maxDate : Date := ⟨9999, 12, 31⟩

/-! ### Data model

One structure per SQLAlchemy model; `db.Numeric(12, 2)` amounts become exact
rationals, foreign keys stay numeric ids, and the lazy relationship
`t.category` becomes an explicit lookup in the category table. -/

structure Account where
  id : ℕ
  nombre : String
  saldo_inicial : ℚ
deriving DecidableEq

structure Category where
  id : ℕ
  nombre : String
  tipo : String
deriving DecidableEq

structure Transaction where
  id : ℕ
  fecha : Date
  concepto : String
  importe : ℚ
  account_id : ℕ
  category_id : ℕ
deriving DecidableEq

structure GoalContribution where
  id : ℕ
  goal_id : ℕ
  fecha : Date
  monto : ℚ
deriving DecidableEq

structure Goal where
  id : ℕ
  nombre : String
  monto_objetivo : Option ℚ
  aportes : List GoalContribution
deriving DecidableEq

structure BudgetLine where
  id : ℕ
  category_id : ℕ
  amount : ℚ
deriving DecidableEq

structure Budget where
  id : ℕ
  cycle_start : Date
  income_estimated : ℚ
  lines : List BudgetLine
deriving DecidableEq

/-- The lazy relationship `t.category`: first category whose primary key
matches (`None` when the foreign key does not resolve). -/
def findCat (cats : List Category) (i : ℕ) : Option Category :=
  cats.find? (fun c => decide (c.id = i))

/-- `Transaction.signed_amount` (`app.py` lines 39–43): `+importe` when the
transaction's category exists and its `tipo` is exactly `'ingreso'`
(case-sensitive), `-importe` otherwise. -/
def signed_amount (cats : List Category) (t : Transaction) : ℚ :=
  match findCat cats t.category_id with
  | some c => if c.tipo = "ingreso" then t.importe else -t.importe
  | none => -t.importe

/-- The category-type check of the cycle KPIs (`app.py` line 138):
`t.category and (t.category.tipo or '').lower() == 'ingreso'`. -/
def ingLowerB (cats : List Category) (t : Transaction) : Bool :=
  match findCat cats t.category_id with
  | some c => sLower c.tipo == "ingreso"
  | none => false

/-- The complementary check of `app.py` line 139:
`t.category and (t.category.tipo or '').lower() != 'ingreso'`. -/
def gasLowerB (cats : List Category) (t : Transaction) : Bool :=
  match findCat cats t.category_id with
  | some c => !(sLower c.tipo == "ingreso")
  | none => false

/-- The normalized income check used by the charts
(`(tipo or '').strip().lower() == 'ingreso'`). -/
def ingStripB (cats : List Category) (t : Transaction) : Bool :=
  match findCat cats t.category_id with
  | some c => sLower (sTrim c.tipo) == "ingreso"
  | none => false

/-- The normalized expense check used by chart 1 and the budget page
(`t.category and (tipo or '').strip().lower() != 'ingreso'`). -/
def gasStripB (cats : List Category) (t : Transaction) : Bool :=
  match findCat cats t.category_id with
  | some c => !(sLower (sTrim c.tipo) == "ingreso")
  | none => false

/-- The category types accepted by the `categories_index` validation
(`tipo not in ('ingreso','gasto')` is rejected), hence the only values
ever stored. -/
def validTipo (t : String) : Prop := t = "ingreso" ∨ t = "gasto"

/-! ### Python dictionaries as association lists

`m[k] = m.get(k, 0) + v` (and the `defaultdict` equivalent `m[k] += v`)
update the entry of `k` in place, appending a fresh entry at the end when the
key is new; `m[k] = v` overwrites.  The recursive upserts below implement
exactly that. -/

/-- `m[k] = m.get(k, 0.0) + v`. -/
def dadd {K : Type} [DecidableEq K] : List (K × ℚ) → K → ℚ → List (K × ℚ)
  | [], k, v => [(k, v)]
  | p :: rest, k, v =>
    if p.1 = k then (p.1, p.2 + v) :: rest else p :: dadd rest k v

/-- `m[k] = v`. -/
def dset {K V : Type} [DecidableEq K] : List (K × V) → K → V → List (K × V)
  | [], k, v => [(k, v)]
  | p :: rest, k, v =>
    if p.1 = k then (k, v) :: rest else p :: dset rest k v

/-- `m.get(k)` / `k in m`. -/
def dfind {K V : Type} [DecidableEq K] : List (K × V) → K → Option V
  | [], _ => none
  | p :: rest, k => if p.1 = k then some p.2 else dfind rest k

/-- `m.get(k, dflt)`. -/
def dget {K V : Type} [DecidableEq K] (m : List (K × V)) (k : K) (dflt : V) : V :=
  (dfind m k).getD dflt

/-- `m.keys()`. -/
def dkeys {K V : Type} (m : List (K × V)) : List K := m.map (fun p => p.1)

/-! ### The `resumen` aggregations (`app.py` lines 126–235) -/

/-- Rounding to two decimals, modelling `round(x, 2)` at the precision the
claims exercise (the claims never hit a half-way tie, where Python rounds to
even and `round` in Lean rounds half up). -/
def round2 (q : ℚ) : ℚ := ((round (q * 100) : ℤ) : ℚ) / 100

/-- SQLite `ORDER BY` a string column: stable sort by code-point order. -/
def sortByNombre {α : Type} (nombre : α → String) (l : List α) : List α :=
  l.mergeSort (fun a b => sLe (nombre a) (nombre b))

/-- The cycle's transactions:
`Transaction.query.filter(fecha >= d1, fecha < d2)`. -/
def cycleTx (txs : List Transaction) (d1 d2 : Date) : List Transaction :=
  txs.filter (fun t => decide (dateLe d1 t.fecha) && decide (dateLt t.fecha d2))

/-- KPI `ingresos` (line 138). -/
def ingresosKPI (cats : List Category) (txc : List Transaction) : ℚ :=
  ((txc.filter (fun t => ingLowerB cats t)).map (fun t => t.importe)).sum

/-- KPI `gastos` (line 139). -/
def gastosKPI (cats : List Category) (txc : List Transaction) : ℚ :=
  ((txc.filter (fun t => gasLowerB cats t)).map (fun t => t.importe)).sum

/-- KPI `balance = ingresos - gastos` (line 140). -/
def balanceKPI (cats : List Category) (txc : List Transaction) : ℚ :=
  ingresosKPI cats txc - gastosKPI cats txc

/-- Per-account balances (lines 142–148): for every account, in name order,
its initial balance plus the signed amounts of all its transactions —
`Transaction.query.filter_by(account_id=c.id)` carries no date filter. -/
def saldos (accounts : List Account) (cats : List Category)
    (txs : List Transaction) : List (Account × ℚ) :=
  (sortByNombre Account.nombre accounts).map (fun c =>
    let movs := txs.filter (fun t => decide (t.account_id = c.id))
    let total_movs := (movs.map (signed_amount cats)).sum
    (c, c.saldo_inicial + total_movs))

/-- Cycle totals per `(name, type)` pair (lines 150–155). -/
def porCat (cats : List Category) (txc : List Transaction) :
    List ((String × String) × ℚ) :=
  txc.foldl (fun m t =>
    let nombre := match findCat cats t.category_id with
      | some c => c.nombre
      | none => "Sin categoría"
    let tipo := match findCat cats t.category_id with
      | some c => c.tipo
      | none => "gasto"
    dadd m (nombre, tipo) t.importe) []

/-- Chart 1 accumulator `spent_by_cat` (lines 158–161). -/
def spentByCat (cats : List Category) (txc : List Transaction) : List (ℕ × ℚ) :=
  txc.foldl (fun m t =>
    if gasStripB cats t then dadd m t.category_id t.importe else m) []

/-- Category label fallback of chart 1 (line 169). -/
def catNombre (cats : List Category) (k : ℕ) : String :=
  match findCat cats k with
  | some c => c.nombre
  | none => "Sin categoría"

/-- Chart 1 (lines 166–171): expense totals sorted descending. -/
def chart1 (cats : List Category) (txc : List Transaction) :
    List String × List ℚ :=
  let sorted := (spentByCat cats txc).mergeSort (fun a b => decide (b.2 ≤ a.2))
  (sorted.map (fun kv => catNombre cats kv.1),
    sorted.map (fun kv => round2 kv.2))

/-- Chart 2 accumulator `budget_by_cat` (lines 174–181): planned amounts of
the budget row keyed by the cycle start, skipping unknown and income
categories. -/
def budgetByCat (cats : List Category) (budgets : List Budget) (d1 : Date) :
    List (ℕ × ℚ) :=
  match budgets.find? (fun b => decide (b.cycle_start = d1)) with
  | none => []
  | some b =>
    b.lines.foldl (fun m bl =>
      match findCat cats bl.category_id with
      | none => m
      | some c =>
        if sLower (sTrim c.tipo) == "ingreso" then m
        else dset m bl.category_id bl.amount) []

/-- Sort key of chart 2 (line 184): category name, `''` when unknown. -/
def catKey (cats : List Category) (k : ℕ) : String :=
  match findCat cats k with
  | some c => c.nombre
  | none => ""

/-- Chart 2's `all_cat_ids` (lines 183–184): the union of planned and spent
category ids, sorted by category name. -/
def allCatIds (cats : List Category) (budgets : List Budget) (d1 : Date)
    (txc : List Transaction) : List ℕ :=
  (dkeys (budgetByCat cats budgets d1) ++
      (dkeys (spentByCat cats txc)).filter
        (fun k => !(decide (k ∈ dkeys (budgetByCat cats budgets d1))))).mergeSort
    (fun k1 k2 => sLe (catKey cats k1) (catKey cats k2))

/-- Chart 2 label fallback (line 185): `f"Cat {k}"`. -/
def catLabelBV (cats : List Category) (k : ℕ) : String :=
  match findCat cats k with
  | some c => c.nombre
  | none => "Cat " ++ Nat.repr k

/-- Chart 2 (lines 183–187). -/
def chart2 (cats : List Category) (budgets : List Budget) (d1 : Date)
    (txc : List Transaction) : List String × List ℚ × List ℚ :=
  let ids := allCatIds cats budgets d1 txc
  (ids.map (catLabelBV cats),
    ids.map (fun k => round2 (dget (budgetByCat cats budgets d1) k 0)),
    ids.map (fun k => round2 (dget (spentByCat cats txc) k 0)))

/-- Chart 3 accumulators `daily_ing` / `daily_gas` (lines 190–197): one pass
over the cycle's transactions, income amounts into the first dictionary,
everything else into the second. -/
def dailyDicts (cats : List Category) (txc : List Transaction) :
    List (Date × ℚ) × List (Date × ℚ) :=
  txc.foldl (fun ms t =>
    if ingStripB cats t then (dadd ms.1 t.fecha t.importe, ms.2)
    else (ms.1, dadd ms.2 t.fecha t.importe)) ([], [])

/-- Two-digit zero padding, as in `strftime('%d'/'%m')`. -/
def fmt2 (n : ℕ) : String := if n < 10 then "0" ++ Nat.repr n else Nat.repr n

/-- `d.strftime('%d/%m')` (line 214). -/
def fmtDayMonth (d : Date) : String := fmt2 d.day ++ "/" ++ fmt2 d.month

/-- The five lists produced by the daily loop. -/
structure Chart3 where
  labels_days : List String
  series_ingresos : List ℚ
  series_gastos : List ℚ
  series_ingresos_diario : List ℚ
  series_gastos_diario : List ℚ
deriving DecidableEq

/-- The `while d < d2` loop of chart 3 (lines 199–217), with the day count
as structural fuel: each iteration emits the rounded daily sums and the
rounded running totals, then steps one day forward. -/
def chart3Aux (mi mg : List (Date × ℚ)) :
    ℕ → Date → Date → ℚ → ℚ → Chart3
  | 0, _, _, _, _ => ⟨[], [], [], [], []⟩
  | fuel + 1, d, d2, accI, accG =>
    if dateLt d d2 then
      ⟨fmtDayMonth d ::
          (chart3Aux mi mg fuel (nextDay d) d2 (accI + dget mi d 0)
            (accG + dget mg d 0)).labels_days,
        round2 (accI + dget mi d 0) ::
          (chart3Aux mi mg fuel (nextDay d) d2 (accI + dget mi d 0)
            (accG + dget mg d 0)).series_ingresos,
        round2 (accG + dget mg d 0) ::
          (chart3Aux mi mg fuel (nextDay d) d2 (accI + dget mi d 0)
            (accG + dget mg d 0)).series_gastos,
        round2 (dget mi d 0) ::
          (chart3Aux mi mg fuel (nextDay d) d2 (accI + dget mi d 0)
            (accG + dget mg d 0)).series_ingresos_diario,
        round2 (dget mg d 0) ::
          (chart3Aux mi mg fuel (nextDay d) d2 (accI + dget mi d 0)
            (accG + dget mg d 0)).series_gastos_diario⟩
    else ⟨[], [], [], [], []⟩

/-- Chart 3 (lines 189–217): the loop runs from `d1` while `d < d2`, once per
day of the cycle; the fuel is the exact day count of `[d1, d2)`. -/
def chart3 (cats : List Category) (txc : List Transaction) (d1 d2 : Date) :
    Chart3 :=
  chart3Aux (dailyDicts cats txc).1 (dailyDicts cats txc).2
    (toOrdinal d2 - toOrdinal d1).toNat d1 d2 0 0

/-- Everything the `resumen` template receives (minus the navigation
anchors, which are plain component arithmetic on `d1`/`d2`). -/
structure ResumenOut where
  d1 : Date
  ingresos : ℚ
  gastos : ℚ
  balance : ℚ
  saldos : List (Account × ℚ)
  por_cat : List ((String × String) × ℚ)
  labels_exp : List String
  data_exp : List ℚ
  labels_bv : List String
  data_budget : List ℚ
  data_spent : List ℚ
  chart3 : Chart3

/-- The `resumen` route (lines 126–235) for a reference date `ref`:
fails iff `cycle_bounds` raises. -/
def resumen (cats : List Category) (accounts : List Account)
    (txs : List Transaction) (budgets : List Budget) (ref : Date) :
    Option ResumenOut :=
  (cycle_bounds ref).bind fun bounds =>
    let d1 := bounds.1
    let d2 := bounds.2
    let tx := cycleTx txs d1 d2
    let c1 := chart1 cats tx
    let c2 := chart2 cats budgets d1 tx
    some {
      d1 := d1
      ingresos := ingresosKPI cats tx
      gastos := gastosKPI cats tx
      balance := balanceKPI cats tx
      saldos := saldos accounts cats txs
      por_cat := porCat cats tx
      labels_exp := c1.1
      data_exp := c1.2
      labels_bv := c2.1
      data_budget := c2.2.1
      data_spent := c2.2.2
      chart3 := chart3 cats tx d1 d2 }

/-! ### The goal tracker (`app.py` lines 54–62) -/

/-- `Goal.total_aportado`: the sum of the goal's contribution amounts
(`sum(...) or Decimal('0')` — the `or` branch returns the same value `0`). -/
def total_aportado (g : Goal) : ℚ := (g.aportes.map (fun a => a.monto)).sum

/-- `Goal.porcentaje`: `0.0` when the target is `None` or `0` (Python
truthiness), else `(total / target) * 100`. -/
def porcentaje (g : Goal) : ℚ :=
  match g.monto_objetivo with
  | none => 0
  | some t => if t = 0 then 0 else (total_aportado g / t) * 100

/-! ### The budget editor POST (`app.py` lines 481–502)

The form parsing boundary is abstracted into `SubVal`: `blank` is a missing
field or a string that is empty after `strip` (the loop `continue`s),
`amount a` is a string `Decimal` parses to `a`, and `bad` is a non-empty
unparsable string (the `except` branch coerces it to `Decimal('0')`). -/

inductive SubVal where
  | blank
  | amount (a : ℚ)
  | bad
deriving DecidableEq

/-- The value the loop body works with when the field is not blank. -/
def subAmt : SubVal → ℚ
  | SubVal.amount a => a
  | _ => 0

/-- One iteration of the editor loop for expense category `c`, acting on the
evolving line list and fresh-id counter; `current` is the pre-loop snapshot
`{bl.category_id: bl for bl in budget.lines}` mapping category ids to the
primary key of their (last) line. -/
def budgetStep (current : List (ℕ × ℕ)) (form : ℕ → SubVal)
    (st : List BudgetLine × ℕ) (c : Category) : List BudgetLine × ℕ :=
  match form c.id with
  | SubVal.blank => st
  | v =>
    let amt := subAmt v
    if 0 < amt then
      match dfind current c.id with
      | some lid =>
        (st.1.map (fun l => if l.id = lid then ⟨l.id, l.category_id, amt⟩ else l),
          st.2)
      | none => (st.1 ++ [⟨st.2, c.id, amt⟩], st.2 + 1)
    else
      match dfind current c.id with
      | some lid => (st.1.filter (fun l => decide (l.id ≠ lid)), st.2)
      | none => st

/-- The POST body of `budget_index` restricted to the per-line edits
(lines 481–502): iterate over the expense categories in name order, skipping
blank fields, upserting on a positive parsed amount and deleting the existing
line otherwise.  `fresh0` is the next free primary key for inserted lines. -/
def budget_index_post (cats : List Category) (form : ℕ → SubVal)
    (lines0 : List BudgetLine) (fresh0 : ℕ) : List BudgetLine :=
  ((sortByNombre Category.nombre cats).filter
      (fun c => !(sLower (sTrim c.tipo) == "ingreso"))).foldl
    (budgetStep (lines0.foldl (fun m bl => dset m bl.category_id bl.id) []) form)
    (lines0, fresh0) |>.1

/-- The budget lines of one category, the unit the editor claims speak about. -/
def linesFor (k : ℕ) (ls : List BudgetLine) : List BudgetLine :=
  ls.filter (fun l => decide (l.category_id = k))

/-- Invariant of the editor loop state: primary keys stay below the fresh-id
counter, the counter never goes below its initial value, and every line with
a pre-existing primary key still has its original category. -/
def stepINV (lines0 : List BudgetLine) (fresh0 : ℕ)
    (st : List BudgetLine × ℕ) : Prop :=
  (∀ l ∈ st.1, l.id < st.2) ∧ fresh0 ≤ st.2 ∧
    (∀ l ∈ st.1, l.id < fresh0 →
      ∃ l0 ∈ lines0, l0.id = l.id ∧ l0.category_id = l.category_id)

/-! ## Lemmas and claim theorems -/

theorem pyDate_eq_some {y m d : ℕ} {x : Date} :
    pyDate y m d = some x ↔ Valid ⟨y, m, d⟩ ∧ x = ⟨y, m, d⟩ := by
  unfold pyDate
  split_ifs with h <;> simp [h, eq_comm]

theorem daysInMonth_ge (y m : ℕ) : 28 ≤ daysInMonth y m := by
  unfold daysInMonth; split_ifs <;> omega

theorem daysInMonth_le (y m : ℕ) : daysInMonth y m ≤ 31 := by
  unfold daysInMonth; split_ifs <;> omega

@[simp] theorem mk_year {y m d : ℕ} : (Date.mk y m d).year = y := rfl

@[simp] theorem mk_month {y m d : ℕ} : (Date.mk y m d).month = m := rfl

@[simp] theorem mk_day {y m d : ℕ} : (Date.mk y m d).day = d := rfl

@[simp] theorem blmk_id {i k : ℕ} {a : ℚ} : (BudgetLine.mk i k a).id = i := rfl

@[simp] theorem blmk_category {i k : ℕ} {a : ℚ} :
    (BudgetLine.mk i k a).category_id = k := rfl

@[simp] theorem blmk_amount {i k : ℕ} {a : ℚ} :
    (BudgetLine.mk i k a).amount = a := rfl

theorem valid_mk {y m d : ℕ} :
    Valid ⟨y, m, d⟩ ↔
      1 ≤ y ∧ y ≤ 9999 ∧ 1 ≤ m ∧ m ≤ 12 ∧ 1 ≤ d ∧ d ≤ daysInMonth y m :=
  Iff.rfl

theorem dateLt_mk {y1 m1 d1 y2 m2 d2 : ℕ} :
    dateLt ⟨y1, m1, d1⟩ ⟨y2, m2, d2⟩ ↔
      y1 < y2 ∨ (y1 = y2 ∧ (m1 < m2 ∨ (m1 = m2 ∧ d1 < d2))) :=
  Iff.rfl

theorem dateLe_mk {y1 m1 d1 y2 m2 d2 : ℕ} :
    dateLe ⟨y1, m1, d1⟩ ⟨y2, m2, d2⟩ ↔
      y1 < y2 ∨ (y1 = y2 ∧ (m1 < m2 ∨ (m1 = m2 ∧ d1 ≤ d2))) := by
  unfold dateLe
  rw [dateLt_mk, Date.mk.injEq]
  omega

theorem cycle_bounds_props {ref s e : Date} (h : cycle_bounds ref = some (s, e)) :
    Valid s ∧ Valid e ∧ s.day = 25 ∧ e = monthAfter s ∧
      (Valid ref → dateLe s ref ∧ dateLt ref e) := by
  obtain ⟨ry, rm, rd⟩ := ref
  unfold cycle_bounds CYCLE_START_DAY at h
  simp only [Option.bind_eq_some] at h
  obtain ⟨c, hc, st, hst, e', he', heq⟩ := h
  rw [pyDate_eq_some] at hc
  obtain ⟨hcv, rfl⟩ := hc
  simp only [Option.some_inj, Prod.mk.injEq] at heq
  obtain ⟨rfl, rfl⟩ := heq
  rw [valid_mk] at hcv
  obtain ⟨hy1, hy2, hm1, hm2, -, -⟩ := hcv
  simp only [mk_year, mk_month, mk_day] at hst he'
  split_ifs at hst with hlt hmo
  · -- ref is before the candidate and the candidate month is January
    have hd : rd < 25 := by rw [dateLt_mk] at hlt; omega
    rw [pyDate_eq_some] at hst
    obtain ⟨hsv, rfl⟩ := hst
    rw [valid_mk] at hsv
    simp only [mk_year, mk_month, mk_day, if_true] at he'
    rw [pyDate_eq_some] at he'
    obtain ⟨hev, rfl⟩ := he'
    rw [valid_mk] at hev
    refine ⟨by rw [valid_mk]; exact hsv, by rw [valid_mk]; exact hev, rfl, ?_, fun hvr => ⟨?_, ?_⟩⟩
    · simp [monthAfter]
    · rw [dateLe_mk]; omega
    · rw [dateLt_mk]; omega
  · -- ref is before the candidate and the candidate month is at least 2
    have hd : rd < 25 := by rw [dateLt_mk] at hlt; omega
    rw [pyDate_eq_some] at hst
    obtain ⟨hsv, rfl⟩ := hst
    rw [valid_mk] at hsv
    simp only [mk_year, mk_month, mk_day] at he'
    rw [if_neg (by omega)] at he'
    rw [pyDate_eq_some] at he'
    obtain ⟨hev, rfl⟩ := he'
    rw [valid_mk] at hev
    refine ⟨by rw [valid_mk]; exact hsv, by rw [valid_mk]; exact hev, rfl, ?_, fun hvr => ⟨?_, ?_⟩⟩
    · unfold monthAfter
      simp only [mk_year, mk_month, mk_day]
      rw [if_neg (by omega)]
    · rw [dateLe_mk]; omega
    · rw [dateLt_mk]; omega
  · -- ref is on or after the candidate, which is the start
    rw [Option.some_inj] at hst
    obtain rfl := hst.symm
    rw [dateLt_mk] at hlt
    simp only [mk_year, mk_month, mk_day] at he'
    have hvr25 : Valid ⟨ry, rm, 25⟩ := by
      rw [valid_mk]
      have := daysInMonth_ge ry rm
      exact ⟨hy1, hy2, hm1, hm2, by omega, by omega⟩
    split_ifs at he' with h12
    · rw [pyDate_eq_some] at he'
      obtain ⟨hev, rfl⟩ := he'
      rw [valid_mk] at hev
      refine ⟨hvr25, by rw [valid_mk]; exact hev, rfl, ?_, fun hvr => ⟨?_, ?_⟩⟩
      · simp [monthAfter, h12]
      · rw [dateLe_mk]; omega
      · rw [dateLt_mk]; omega
    · rw [pyDate_eq_some] at he'
      obtain ⟨hev, rfl⟩ := he'
      rw [valid_mk] at hev
      refine ⟨hvr25, by rw [valid_mk]; exact hev, rfl, ?_, fun hvr => ⟨?_, ?_⟩⟩
      · simp [monthAfter, h12]
      · rw [dateLe_mk]; omega
      · rw [dateLt_mk]; omega

theorem pyDate_eq_some_of_valid {y m d : ℕ} (h : Valid ⟨y, m, d⟩) :
    pyDate y m d = some ⟨y, m, d⟩ := by
  rw [pyDate_eq_some]; exact ⟨h, rfl⟩

theorem cycle_bounds_total {ref : Date} (h : Valid ref)
    (h1 : ¬(ref.year = 1 ∧ ref.month = 1 ∧ ref.day < 25))
    (h2 : ¬(ref.year = 9999 ∧ ref.month = 12 ∧ 25 ≤ ref.day)) :
    ∃ p, cycle_bounds ref = some p := by
  obtain ⟨ry, rm, rd⟩ := ref
  rw [valid_mk] at h
  obtain ⟨hy1, hy2, hm1, hm2, hd1, hd2⟩ := h
  simp only [mk_year, mk_month, mk_day] at h1 h2
  have hdim := daysInMonth_ge ry rm
  unfold cycle_bounds CYCLE_START_DAY
  simp only [mk_year, mk_month, mk_day]
  rw [pyDate_eq_some_of_valid (by rw [valid_mk]; exact ⟨hy1, hy2, hm1, hm2, by omega, by omega⟩)]
  simp only [Option.some_bind, mk_year, mk_month, mk_day]
  by_cases hlt : dateLt ⟨ry, rm, rd⟩ ⟨ry, rm, 25⟩
  · have hd : rd < 25 := by rw [dateLt_mk] at hlt; omega
    rw [if_pos hlt]
    by_cases hmo : rm = 1
    · have hyy : 2 ≤ ry := by omega
      rw [if_pos hmo]
      rw [pyDate_eq_some_of_valid (by
        rw [valid_mk]
        have := daysInMonth_ge (ry - 1) 12
        exact ⟨by omega, by omega, by omega, by omega, by omega, by omega⟩)]
      simp only [Option.some_bind, mk_year, mk_month, mk_day, if_pos rfl]
      rw [pyDate_eq_some_of_valid (by
        rw [valid_mk]
        have := daysInMonth_ge (ry - 1 + 1) 1
        exact ⟨by omega, by omega, by omega, by omega, by omega, by omega⟩)]
      exact ⟨_, rfl⟩
    · rw [if_neg hmo]
      rw [pyDate_eq_some_of_valid (by
        rw [valid_mk]
        have := daysInMonth_ge ry (rm - 1)
        exact ⟨by omega, by omega, by omega, by omega, by omega, by omega⟩)]
      simp only [Option.some_bind, mk_year, mk_month, mk_day]
      rw [if_neg (by omega)]
      rw [pyDate_eq_some_of_valid (by
        rw [valid_mk]
        have := daysInMonth_ge ry (rm - 1 + 1)
        exact ⟨by omega, by omega, by omega, by omega, by omega, by omega⟩)]
      exact ⟨_, rfl⟩
  · rw [if_neg hlt]
    simp only [Option.some_bind, mk_year, mk_month, mk_day]
    have hge : 25 ≤ rd := by rw [dateLt_mk] at hlt; omega
    by_cases h12 : rm = 12
    · have hyy : ry ≠ 9999 := fun hy => h2 ⟨hy, h12, hge⟩
      rw [if_pos h12]
      rw [pyDate_eq_some_of_valid (by
        rw [valid_mk]
        have := daysInMonth_ge (ry + 1) 1
        exact ⟨by omega, by omega, by omega, by omega, by omega, by omega⟩)]
      exact ⟨_, rfl⟩
    · rw [if_neg h12]
      rw [pyDate_eq_some_of_valid (by
        rw [valid_mk]
        have := daysInMonth_ge ry (rm + 1)
        exact ⟨by omega, by omega, by omega, by omega, by omega, by omega⟩)]
      exact ⟨_, rfl⟩

/-- C1 (corrected).  For every representable date `d` whose containing cycle
also lies in the representable range — that is, excluding January 1–24 of
year 1 and December 25–31 of year 9999, where Python's `date` constructor
raises inside `cycle_bounds` — `cycle_bounds(d)` with the default start day
25 returns `(start, end)` with `start ≤ d < end`, `start.day = 25` and `end`
exactly one calendar month after `start`; in particular
`cycle_bounds(2024-01-10) = (2023-12-25, 2024-01-25)`. -/
theorem claim1_cycle_bounds_interval :
    (∀ ref : Date, Valid ref →
      ¬(ref.year = 1 ∧ ref.month = 1 ∧ ref.day < 25) →
      ¬(ref.year = 9999 ∧ ref.month = 12 ∧ 25 ≤ ref.day) →
      ∃ s e, cycle_bounds ref = some (s, e) ∧ dateLe s ref ∧ dateLt ref e ∧
        s.day = 25 ∧ e = monthAfter s) ∧
    cycle_bounds ⟨2024, 1, 10⟩ = some (⟨2023, 12, 25⟩, ⟨2024, 1, 25⟩) := by
  constructor
  · intro ref hv h1 h2
    obtain ⟨⟨s, e⟩, hp⟩ := cycle_bounds_total hv h1 h2
    obtain ⟨hs, he, hday, hma, hint⟩ := cycle_bounds_props hp
    exact ⟨s, e, hp, (hint hv).1, (hint hv).2, hday, hma⟩
  · decide

/-- C1 witness: the general statement applied at `2024-05-03`. -/
theorem claim1_witness :
    Valid ⟨2024, 5, 3⟩ ∧
      (∃ s e, cycle_bounds ⟨2024, 5, 3⟩ = some (s, e) ∧ dateLe s ⟨2024, 5, 3⟩ ∧
        dateLt ⟨2024, 5, 3⟩ e ∧ s.day = 25 ∧ e = monthAfter s) :=
  ⟨by decide,
    claim1_cycle_bounds_interval.1 ⟨2024, 5, 3⟩ (by decide) (by decide) (by decide)⟩

/-- C1 counterexample: `0001-01-10` is a perfectly good calendar date, but
`cycle_bounds` raises on it (`date(0, 12, 25)` is constructed), so no pair
with the claimed properties is returned. -/
theorem claim1_counterexample :
    Valid ⟨1, 1, 10⟩ ∧ cycle_bounds ⟨1, 1, 10⟩ = none :=
  ⟨by decide, by decide⟩

/-- C2 (corrected).  Whenever `cycle_bounds d = (start1, end1)` and `end1` is
not `9999-12-25` (the one value where the follow-up computation raises),
feeding `end1` back in yields the adjacent cycle: `cycle_bounds end1` returns
a pair whose start is exactly `end1`. -/
theorem claim2_cycles_adjacent :
    ∀ d s e, cycle_bounds d = some (s, e) → e ≠ (⟨9999, 12, 25⟩ : Date) →
      ∃ e2, cycle_bounds e = some (e, e2) := by
  intro d s e h hne
  obtain ⟨-, he, hday, hma, -⟩ := cycle_bounds_props h
  have heday : e.day = 25 := by
    rw [hma]; unfold monthAfter; split_ifs <;> simp [hday]
  obtain ⟨ey, em, ed⟩ := e
  simp only [mk_day] at heday
  obtain rfl := heday
  rw [valid_mk] at he
  obtain ⟨hy1, hy2, hm1, hm2, hd1, hd2⟩ := he
  unfold cycle_bounds CYCLE_START_DAY
  simp only [mk_year, mk_month, mk_day]
  rw [pyDate_eq_some_of_valid (by
    rw [valid_mk]; exact ⟨hy1, hy2, hm1, hm2, by omega, by omega⟩)]
  simp only [Option.some_bind, mk_year, mk_month, mk_day]
  rw [if_neg (by rw [dateLt_mk]; omega)]
  simp only [Option.some_bind, mk_year, mk_month, mk_day]
  by_cases h12 : em = 12
  · have hyy : ey ≠ 9999 := fun hy => hne (by rw [hy, h12])
    rw [if_pos h12]
    rw [pyDate_eq_some_of_valid (by
      rw [valid_mk]
      have := daysInMonth_ge (ey + 1) 1
      exact ⟨by omega, by omega, by omega, by omega, by omega, by omega⟩)]
    exact ⟨_, rfl⟩
  · rw [if_neg h12]
    rw [pyDate_eq_some_of_valid (by
      rw [valid_mk]
      have := daysInMonth_ge ey (em + 1)
      exact ⟨by omega, by omega, by omega, by omega, by omega, by omega⟩)]
    exact ⟨_, rfl⟩

/-- C2 witness: the cycle of `2024-01-10` ends at `2024-01-25`, and the
cycle computed from that end starts exactly there. -/
theorem claim2_witness :
    ∃ e2, cycle_bounds ⟨2024, 1, 25⟩ = some (⟨2024, 1, 25⟩, e2) :=
  claim2_cycles_adjacent ⟨2024, 1, 10⟩ ⟨2023, 12, 25⟩ ⟨2024, 1, 25⟩
    (by decide) (by decide)

/-- C2 counterexample: the cycle of `9999-11-30` ends at `9999-12-25`, but
`cycle_bounds` raises on that end (`date(10000, 1, 25)` is constructed), so
no following cycle is returned at all. -/
theorem claim2_counterexample :
    cycle_bounds ⟨9999, 11, 30⟩ = some (⟨9999, 11, 25⟩, ⟨9999, 12, 25⟩) ∧
      cycle_bounds ⟨9999, 12, 25⟩ = none :=
  ⟨by decide, by decide⟩

/-! ### Ordinal arithmetic for the daily loop -/

theorem daysBefore_succ (y m : ℕ) (h1 : 1 ≤ m) (h2 : m ≤ 12) :
    daysBefore y (m + 1) = daysBefore y m + daysInMonth y m := by
  interval_cases m <;> by_cases hL : isLeap y <;>
    simp [daysBefore, monthOffset, daysInMonth, hL]

theorem daysBefore_add_le (y : ℕ) :
    ∀ k m, 1 ≤ m → m + k ≤ 12 →
      daysBefore y m + daysInMonth y m ≤ daysBefore y (m + 1 + k) := by
  intro k
  induction k with
  | zero =>
    intro m h1 h2
    rw [daysBefore_succ y m h1 (by omega)]
  | succ n ih =>
    intro m h1 h2
    have hrec := ih m h1 (by omega)
    have hstep : daysBefore y (m + 1 + n + 1) =
        daysBefore y (m + 1 + n) + daysInMonth y (m + 1 + n) :=
      daysBefore_succ y (m + 1 + n) (by omega) (by omega)
    have hidx : m + 1 + (n + 1) = m + 1 + n + 1 := by omega
    rw [hidx, hstep]
    omega

theorem leapsBefore_succ (y : ℕ) (h : 1 ≤ y) :
    leapsBefore y = leapsBefore (y - 1) + (if isLeap y then 1 else 0) := by
  unfold leapsBefore isLeap
  split_ifs with hL <;> omega

theorem leapsBefore_mono {a b : ℕ} (h : a ≤ b) :
    leapsBefore a ≤ leapsBefore b := by
  induction b, h using Nat.le_induction with
  | base => exact le_refl _
  | succ n hn ih =>
    have hs := leapsBefore_succ (n + 1) (by omega)
    simp only [Nat.add_sub_cancel] at hs
    split_ifs at hs <;> omega

theorem daysInMonth_12 (y : ℕ) : daysInMonth y 12 = 31 := by
  unfold daysInMonth; norm_num

theorem toOrdinal_nextDay (d : Date) (h : Valid d) :
    toOrdinal (nextDay d) = toOrdinal d + 1 := by
  obtain ⟨y, m, dd⟩ := d
  rw [valid_mk] at h
  obtain ⟨hy1, hy2, hm1, hm2, hd1, hd2⟩ := h
  unfold nextDay
  simp only [mk_year, mk_month, mk_day]
  split_ifs with h1 h2
  · unfold toOrdinal
    simp only [mk_year, mk_month, mk_day]
    push_cast
    ring
  · unfold toOrdinal
    simp only [mk_year, mk_month, mk_day]
    rw [daysBefore_succ y m hm1 hm2]
    push_cast
    omega
  · have hm : m = 12 := by omega
    subst hm
    have h31 := daysInMonth_12 y
    have hdd : dd = 31 := by omega
    subst hdd
    have hls := leapsBefore_succ y hy1
    unfold toOrdinal daysBefore monthOffset
    simp only [mk_year, mk_month, mk_day, Nat.add_sub_cancel]
    norm_num
    split_ifs at hls ⊢ with hL <;> push_cast <;> omega

theorem toOrdinal_bounds (d : Date) (h : Valid d) :
    365 * ((d.year : ℤ) - 1) + leapsBefore (d.year - 1) + 1 ≤ toOrdinal d ∧
      toOrdinal d ≤ 365 * (d.year : ℤ) + leapsBefore d.year := by
  obtain ⟨y, m, dd⟩ := d
  rw [valid_mk] at h
  obtain ⟨hy1, hy2, hm1, hm2, hd1, hd2⟩ := h
  have hstep : daysBefore y m + daysInMonth y m ≤ daysBefore y 13 := by
    have h13 : m + 1 + (12 - m) = 13 := by omega
    have := daysBefore_add_le y (12 - m) m hm1 (by omega)
    rwa [h13] at this
  have h13v : daysBefore y 13 = 365 + (if isLeap y then 1 else 0) := by
    by_cases hL : isLeap y <;> simp [daysBefore, monthOffset, hL]
  have hls := leapsBefore_succ y hy1
  unfold toOrdinal
  simp only [mk_year, mk_month, mk_day]
  constructor
  · omega
  · split_ifs at h13v hls <;> omega

theorem toOrdinal_lt_of_dateLt {a b : Date} (ha : Valid a) (hb : Valid b)
    (h : dateLt a b) : toOrdinal a < toOrdinal b := by
  obtain ⟨ya, ma, da⟩ := a
  obtain ⟨yb, mb, db⟩ := b
  have hba := toOrdinal_bounds ⟨ya, ma, da⟩ ha
  have hbb := toOrdinal_bounds ⟨yb, mb, db⟩ hb
  rw [valid_mk] at ha hb
  obtain ⟨hya1, hya2, hma1, hma2, hda1, hda2⟩ := ha
  obtain ⟨hyb1, hyb2, hmb1, hmb2, hdb1, hdb2⟩ := hb
  rw [dateLt_mk] at h
  simp only [mk_year] at hba hbb
  rcases h with hy | ⟨hyeq, h⟩
  · have hmono : leapsBefore ya ≤ leapsBefore (yb - 1) := leapsBefore_mono (by omega)
    omega
  · subst hyeq
    rcases h with hm | ⟨hmeq, hd⟩
    · unfold toOrdinal at *
      simp only [mk_year, mk_month, mk_day] at *
      have hstep := daysBefore_add_le ya (mb - ma - 1) ma hma1 (by omega)
      have hidx : ma + 1 + (mb - ma - 1) = mb := by omega
      rw [hidx] at hstep
      omega
    · subst hmeq
      unfold toOrdinal
      simp only [mk_year, mk_month, mk_day]
      omega

theorem dateLt_trichotomy (a b : Date) : dateLt a b ∨ a = b ∨ dateLt b a := by
  obtain ⟨ya, ma, da⟩ := a
  obtain ⟨yb, mb, db⟩ := b
  simp only [dateLt_mk, Date.mk.injEq]
  omega

theorem dateLt_iff_toOrdinal {a b : Date} (ha : Valid a) (hb : Valid b) :
    dateLt a b ↔ toOrdinal a < toOrdinal b := by
  constructor
  · exact toOrdinal_lt_of_dateLt ha hb
  · intro h
    rcases dateLt_trichotomy a b with h1 | h1 | h1
    · exact h1
    · subst h1; omega
    · have := toOrdinal_lt_of_dateLt hb ha h1; omega

theorem valid_nextDay {d : Date} (h : Valid d)
    (hne : ¬(d.year = 9999 ∧ d.month = 12 ∧ d.day = 31)) :
    Valid (nextDay d) := by
  obtain ⟨y, m, dd⟩ := d
  rw [valid_mk] at h
  obtain ⟨hy1, hy2, hm1, hm2, hd1, hd2⟩ := h
  simp only [mk_year, mk_month, mk_day] at hne
  unfold nextDay
  simp only [mk_year, mk_month, mk_day]
  split_ifs with h1 h2
  · rw [valid_mk]
    exact ⟨hy1, hy2, hm1, hm2, by omega, by omega⟩
  · rw [valid_mk]
    have := daysInMonth_ge y (m + 1)
    exact ⟨hy1, hy2, by omega, by omega, by omega, by omega⟩
  · have hm : m = 12 := by omega
    subst hm
    have h31 := daysInMonth_12 y
    have hdd : dd = 31 := by omega
    have hy : y ≠ 9999 := fun hc => hne ⟨hc, rfl, hdd⟩
    rw [valid_mk]
    have := daysInMonth_ge (y + 1) 1
    exact ⟨by omega, by omega, by omega, by omega, by omega, by omega⟩

theorem toOrdinal_le_max {d : Date} (h : Valid d) :
    toOrdinal d ≤ toOrdinal maxDate := by
  rcases dateLt_trichotomy d maxDate with h1 | h1 | h1
  · exact le_of_lt (toOrdinal_lt_of_dateLt h (by decide) h1)
  · rw [h1]
  · exfalso
    obtain ⟨y, m, dd⟩ := d
    rw [valid_mk] at h
    obtain ⟨hy1, hy2, hm1, hm2, hd1, hd2⟩ := h
    have := daysInMonth_le y m
    unfold maxDate at h1
    rw [dateLt_mk] at h1
    omega

theorem cycle_gap {s : Date} (hs : Valid s) :
    toOrdinal (monthAfter s) - toOrdinal s = daysInMonth s.year s.month := by
  obtain ⟨y, m, dd⟩ := s
  rw [valid_mk] at hs
  obtain ⟨hy1, hy2, hm1, hm2, -, -⟩ := hs
  unfold monthAfter
  simp only [mk_year, mk_month, mk_day]
  split_ifs with h12
  · subst h12
    have hls := leapsBefore_succ y hy1
    rw [daysInMonth_12]
    unfold toOrdinal daysBefore monthOffset
    simp only [mk_year, mk_month, mk_day, Nat.add_sub_cancel]
    norm_num
    split_ifs at hls ⊢ <;> push_cast <;> omega
  · unfold toOrdinal
    simp only [mk_year, mk_month, mk_day]
    rw [daysBefore_succ y m hm1 hm2]
    push_cast
    omega

/-! ### Dictionary lemmas -/

theorem dget_dadd_same {K : Type} [DecidableEq K] (m : List (K × ℚ)) (k : K)
    (v : ℚ) : dget (dadd m k v) k 0 = dget m k 0 + v := by
  induction m with
  | nil => simp [dadd, dget, dfind]
  | cons p rest ih =>
    by_cases h : p.1 = k
    · simp [dadd, dget, dfind, h]
    · simpa [dadd, dget, dfind, h] using ih

theorem dget_dadd_ne {K : Type} [DecidableEq K] (m : List (K × ℚ)) (k k' : K)
    (v : ℚ) (h : k' ≠ k) : dget (dadd m k v) k' 0 = dget m k' 0 := by
  induction m with
  | nil => simp [dadd, dget, dfind, Ne.symm h]
  | cons p rest ih =>
    by_cases hp : p.1 = k
    · simp [dadd, dget, dfind, hp, h, Ne.symm h]
    · by_cases hp' : p.1 = k'
      · simp [dadd, dget, dfind, hp, hp', h, Ne.symm h]
      · simpa [dadd, dget, dfind, hp, hp'] using ih

theorem dailyDicts_loop (cats : List Category) (d : Date) :
    ∀ (txc : List Transaction) (ms : List (Date × ℚ) × List (Date × ℚ)),
      dget (txc.foldl (fun ms t =>
          if ingStripB cats t then (dadd ms.1 t.fecha t.importe, ms.2)
          else (ms.1, dadd ms.2 t.fecha t.importe)) ms).1 d 0 =
        dget ms.1 d 0 +
          ((txc.filter (fun t => ingStripB cats t && (t.fecha == d))).map
            (fun t => t.importe)).sum ∧
      dget (txc.foldl (fun ms t =>
          if ingStripB cats t then (dadd ms.1 t.fecha t.importe, ms.2)
          else (ms.1, dadd ms.2 t.fecha t.importe)) ms).2 d 0 =
        dget ms.2 d 0 +
          ((txc.filter (fun t => !ingStripB cats t && (t.fecha == d))).map
            (fun t => t.importe)).sum := by
  intro txc
  induction txc with
  | nil => intro ms; simp
  | cons t rest ih =>
    intro ms
    simp only [List.foldl_cons]
    by_cases hI : ingStripB cats t
    · rw [if_pos hI]
      by_cases hF : t.fecha = d
      · subst hF
        refine ⟨?_, ?_⟩
        · rw [(ih _).1, List.filter_cons]
          simp [hI, dget_dadd_same]
          ring
        · rw [(ih _).2, List.filter_cons]
          simp [hI]
      · refine ⟨?_, ?_⟩
        · rw [(ih _).1, List.filter_cons]
          simp [hI, hF, dget_dadd_ne _ _ _ _ (Ne.symm hF)]
        · rw [(ih _).2, List.filter_cons]
          simp [hI, hF]
    · rw [if_neg hI]
      by_cases hF : t.fecha = d
      · subst hF
        refine ⟨?_, ?_⟩
        · rw [(ih _).1, List.filter_cons]
          simp [hI]
        · rw [(ih _).2, List.filter_cons]
          simp [hI, dget_dadd_same]
          ring
      · refine ⟨?_, ?_⟩
        · rw [(ih _).1, List.filter_cons]
          simp [hI, hF]
        · rw [(ih _).2, List.filter_cons]
          simp [hI, hF, dget_dadd_ne _ _ _ _ (Ne.symm hF)]

theorem dget_dailyDicts_fst (cats : List Category) (txc : List Transaction)
    (d : Date) :
    dget (dailyDicts cats txc).1 d 0 =
      ((txc.filter (fun t => ingStripB cats t && (t.fecha == d))).map
        (fun t => t.importe)).sum := by
  unfold dailyDicts
  rw [(dailyDicts_loop cats d txc ([], [])).1]
  simp [dget, dfind]

theorem dget_dailyDicts_snd (cats : List Category) (txc : List Transaction)
    (d : Date) :
    dget (dailyDicts cats txc).2 d 0 =
      ((txc.filter (fun t => !ingStripB cats t && (t.fecha == d))).map
        (fun t => t.importe)).sum := by
  unfold dailyDicts
  rw [(dailyDicts_loop cats d txc ([], [])).2]
  simp [dget, dfind]

/-! ### The daily-loop invariant -/

theorem chart3Aux_spec (mi mg : List (Date × ℚ)) (d2 : Date) (hd2 : Valid d2) :
    ∀ (fuel : ℕ) (d : Date) (accI accG : ℚ), Valid d →
      toOrdinal d + fuel = toOrdinal d2 →
      ((chart3Aux mi mg fuel d d2 accI accG).labels_days.length = fuel ∧
        (chart3Aux mi mg fuel d d2 accI accG).series_ingresos.length = fuel ∧
        (chart3Aux mi mg fuel d d2 accI accG).series_gastos.length = fuel ∧
        (chart3Aux mi mg fuel d d2 accI accG).series_ingresos_diario.length = fuel ∧
        (chart3Aux mi mg fuel d d2 accI accG).series_gastos_diario.length = fuel) ∧
      (∀ i, i < fuel →
        toOrdinal (nextDay^[i] d) = toOrdinal d + i ∧
        Valid (nextDay^[i] d) ∧
        (chart3Aux mi mg fuel d d2 accI accG).series_ingresos_diario.getD i 0 =
          round2 (dget mi (nextDay^[i] d) 0) ∧
        (chart3Aux mi mg fuel d d2 accI accG).series_gastos_diario.getD i 0 =
          round2 (dget mg (nextDay^[i] d) 0) ∧
        (chart3Aux mi mg fuel d d2 accI accG).series_ingresos.getD i 0 =
          round2 (accI + ∑ j ∈ Finset.range (i + 1), dget mi (nextDay^[j] d) 0) ∧
        (chart3Aux mi mg fuel d d2 accI accG).series_gastos.getD i 0 =
          round2 (accG + ∑ j ∈ Finset.range (i + 1), dget mg (nextDay^[j] d) 0)) := by
  intro fuel
  induction fuel with
  | zero =>
    intro d accI accG hv hord
    exact ⟨by simp [chart3Aux], fun i hi => absurd hi (by omega)⟩
  | succ n ih =>
    intro d accI accG hv hord
    have hguard : dateLt d d2 := by
      rw [dateLt_iff_toOrdinal hv hd2]; omega
    have hne : ¬(d.year = 9999 ∧ d.month = 12 ∧ d.day = 31) := by
      intro hcon
      have hdm : d = maxDate := by
        obtain ⟨y, m, dd⟩ := d
        simp only [mk_year, mk_month, mk_day] at hcon
        unfold maxDate
        simp only [Date.mk.injEq]
        exact ⟨hcon.1, hcon.2.1, hcon.2.2⟩
      have hmax := toOrdinal_le_max hd2
      rw [hdm] at hord
      omega
    have hvn : Valid (nextDay d) := valid_nextDay hv hne
    have hon : toOrdinal (nextDay d) = toOrdinal d + 1 := toOrdinal_nextDay d hv
    have ihh := ih (nextDay d) (accI + dget mi d 0) (accG + dget mg d 0) hvn
      (by rw [hon]; push_cast at hord ⊢; omega)
    obtain ⟨⟨hl1, hl2, hl3, hl4, hl5⟩, hidx⟩ := ihh
    simp only [chart3Aux, if_pos hguard]
    refine ⟨⟨by simp [hl1], by simp [hl2], by simp [hl3], by simp [hl4], by simp [hl5]⟩, ?_⟩
    intro i hi
    cases i with
    | zero =>
      refine ⟨by simp, by simpa using hv, ?_, ?_, ?_, ?_⟩
      · simp [List.getD_cons_zero]
      · simp [List.getD_cons_zero]
      · simp [List.getD_cons_zero, Finset.sum_range_one]
      · simp [List.getD_cons_zero, Finset.sum_range_one]
    | succ i' =>
      have hi' : i' < n := by omega
      obtain ⟨ho, hvv, hd1, hd2g, hc1, hc2⟩ := hidx i' hi'
      have hit : nextDay^[i' + 1] d = nextDay^[i'] (nextDay d) :=
        Function.iterate_succ_apply nextDay i' d
      refine ⟨?_, ?_, ?_, ?_, ?_, ?_⟩
      · rw [hit, ho, hon]; push_cast; ring
      · rw [hit]; exact hvv
      · simpa [List.getD_cons_succ, hit] using hd1
      · simpa [List.getD_cons_succ, hit] using hd2g
      · simp only [List.getD_cons_succ]
        rw [hc1]
        have hsum : ∑ j ∈ Finset.range (i' + 1 + 1), dget mi (nextDay^[j] d) 0 =
            dget mi d 0 + ∑ j ∈ Finset.range (i' + 1), dget mi (nextDay^[j] (nextDay d)) 0 := by
          rw [Finset.sum_range_succ']
          simp only [Function.iterate_succ_apply, Function.iterate_zero_apply]
          ring
        rw [hsum]
        congr 1
        ring
      · simp only [List.getD_cons_succ]
        rw [hc2]
        have hsum : ∑ j ∈ Finset.range (i' + 1 + 1), dget mg (nextDay^[j] d) 0 =
            dget mg d 0 + ∑ j ∈ Finset.range (i' + 1), dget mg (nextDay^[j] (nextDay d)) 0 := by
          rw [Finset.sum_range_succ']
          simp only [Function.iterate_succ_apply, Function.iterate_zero_apply]
          ring
        rw [hsum]
        congr 1
        ring

/-- C4 (confirmed).  For any cycle returned by `cycle_bounds`, the daily
series of chart 3 have exactly one entry per day of `[start, end)` in date
order — the cycle spans `daysInMonth start.year start.month` days, which is
always between 28 and 31 —; the `i`-th raw daily entry is the rounded sum of
the amounts of the cycle's income (resp. non-income) transactions dated
exactly on day `start + i`; the cumulative entries are the rounded running
totals of the unrounded daily sums; and every emitted value passes through
`round2`. -/
theorem claim4_daily_series :
    ∀ (cats : List Category) (txs : List Transaction) (ref d1 d2 : Date),
      cycle_bounds ref = some (d1, d2) →
      (28 ≤ daysInMonth d1.year d1.month ∧ daysInMonth d1.year d1.month ≤ 31) ∧
      ((chart3 cats (cycleTx txs d1 d2) d1 d2).series_ingresos_diario.length =
          daysInMonth d1.year d1.month ∧
        (chart3 cats (cycleTx txs d1 d2) d1 d2).series_gastos_diario.length =
          daysInMonth d1.year d1.month ∧
        (chart3 cats (cycleTx txs d1 d2) d1 d2).series_ingresos.length =
          daysInMonth d1.year d1.month ∧
        (chart3 cats (cycleTx txs d1 d2) d1 d2).series_gastos.length =
          daysInMonth d1.year d1.month ∧
        (chart3 cats (cycleTx txs d1 d2) d1 d2).labels_days.length =
          daysInMonth d1.year d1.month) ∧
      (∀ i, i < daysInMonth d1.year d1.month →
        toOrdinal (nextDay^[i] d1) = toOrdinal d1 + i ∧
        dateLe d1 (nextDay^[i] d1) ∧ dateLt (nextDay^[i] d1) d2 ∧
        (chart3 cats (cycleTx txs d1 d2) d1 d2).series_ingresos_diario.getD i 0 =
          round2 ((((cycleTx txs d1 d2).filter (fun t =>
            ingStripB cats t && (t.fecha == nextDay^[i] d1))).map
              (fun t => t.importe)).sum) ∧
        (chart3 cats (cycleTx txs d1 d2) d1 d2).series_gastos_diario.getD i 0 =
          round2 ((((cycleTx txs d1 d2).filter (fun t =>
            !ingStripB cats t && (t.fecha == nextDay^[i] d1))).map
              (fun t => t.importe)).sum) ∧
        (chart3 cats (cycleTx txs d1 d2) d1 d2).series_ingresos.getD i 0 =
          round2 (∑ j ∈ Finset.range (i + 1),
            (((cycleTx txs d1 d2).filter (fun t =>
              ingStripB cats t && (t.fecha == nextDay^[j] d1))).map
                (fun t => t.importe)).sum) ∧
        (chart3 cats (cycleTx txs d1 d2) d1 d2).series_gastos.getD i 0 =
          round2 (∑ j ∈ Finset.range (i + 1),
            (((cycleTx txs d1 d2).filter (fun t =>
              !ingStripB cats t && (t.fecha == nextDay^[j] d1))).map
                (fun t => t.importe)).sum)) := by
  intro cats txs ref d1 d2 h
  obtain ⟨hv1, hv2, hday, hma, -⟩ := cycle_bounds_props h
  have hgap : toOrdinal d2 - toOrdinal d1 = daysInMonth d1.year d1.month := by
    rw [hma]; exact cycle_gap hv1
  have hdiml := daysInMonth_ge d1.year d1.month
  have hdimu := daysInMonth_le d1.year d1.month
  have hfuel : (toOrdinal d2 - toOrdinal d1).toNat = daysInMonth d1.year d1.month := by
    omega
  have hspec := chart3Aux_spec (dailyDicts cats (cycleTx txs d1 d2)).1
    (dailyDicts cats (cycleTx txs d1 d2)).2 d2 hv2
    (toOrdinal d2 - toOrdinal d1).toNat d1 0 0 hv1 (by omega)
  obtain ⟨⟨hl1, hl2, hl3, hl4, hl5⟩, hidx⟩ := hspec
  refine ⟨⟨hdiml, hdimu⟩, ?_, ?_⟩
  · unfold chart3
    exact ⟨hl4.trans hfuel, hl5.trans hfuel, hl2.trans hfuel, hl3.trans hfuel,
      hl1.trans hfuel⟩
  · intro i hi
    have hii : i < (toOrdinal d2 - toOrdinal d1).toNat := by omega
    obtain ⟨ho, hvv, hdi, hdg, hci, hcg⟩ := hidx i hii
    have hle : dateLe d1 (nextDay^[i] d1) := by
      rcases dateLt_trichotomy d1 (nextDay^[i] d1) with h1 | h1 | h1
      · exact Or.inl h1
      · exact Or.inr h1
      · have := toOrdinal_lt_of_dateLt hvv hv1 h1
        omega
    have hlt : dateLt (nextDay^[i] d1) d2 := by
      rw [dateLt_iff_toOrdinal hvv hv2]
      omega
    refine ⟨ho, hle, hlt, ?_, ?_, ?_, ?_⟩
    · unfold chart3
      rw [← dget_dailyDicts_fst cats (cycleTx txs d1 d2) (nextDay^[i] d1)]
      exact hdi
    · unfold chart3
      rw [← dget_dailyDicts_snd cats (cycleTx txs d1 d2) (nextDay^[i] d1)]
      exact hdg
    · unfold chart3
      rw [show (∑ j ∈ Finset.range (i + 1),
          (((cycleTx txs d1 d2).filter (fun t =>
            ingStripB cats t && (t.fecha == nextDay^[j] d1))).map
              (fun t => t.importe)).sum) =
          ∑ j ∈ Finset.range (i + 1),
            dget (dailyDicts cats (cycleTx txs d1 d2)).1 (nextDay^[j] d1) 0 from
        Finset.sum_congr rfl fun j _ =>
          (dget_dailyDicts_fst cats (cycleTx txs d1 d2) (nextDay^[j] d1)).symm]
      rw [show round2 (∑ j ∈ Finset.range (i + 1),
          dget (dailyDicts cats (cycleTx txs d1 d2)).1 (nextDay^[j] d1) 0) =
          round2 (0 + ∑ j ∈ Finset.range (i + 1),
            dget (dailyDicts cats (cycleTx txs d1 d2)).1 (nextDay^[j] d1) 0) from
        by rw [zero_add]]
      exact hci
    · unfold chart3
      rw [show (∑ j ∈ Finset.range (i + 1),
          (((cycleTx txs d1 d2).filter (fun t =>
            !ingStripB cats t && (t.fecha == nextDay^[j] d1))).map
              (fun t => t.importe)).sum) =
          ∑ j ∈ Finset.range (i + 1),
            dget (dailyDicts cats (cycleTx txs d1 d2)).2 (nextDay^[j] d1) 0 from
        Finset.sum_congr rfl fun j _ =>
          (dget_dailyDicts_snd cats (cycleTx txs d1 d2) (nextDay^[j] d1)).symm]
      rw [show round2 (∑ j ∈ Finset.range (i + 1),
          dget (dailyDicts cats (cycleTx txs d1 d2)).2 (nextDay^[j] d1) 0) =
          round2 (0 + ∑ j ∈ Finset.range (i + 1),
            dget (dailyDicts cats (cycleTx txs d1 d2)).2 (nextDay^[j] d1) 0) from
        by rw [zero_add]]
      exact hcg

/-- C4 witness: the cycle of `2024-01-10` spans December 2023, so every
series of chart 3 has exactly 31 entries, and 28 ≤ 31 ≤ 31. -/
theorem claim4_witness :
    28 ≤ daysInMonth 2023 12 ∧ daysInMonth 2023 12 ≤ 31 ∧
      (chart3 [] (cycleTx [] ⟨2023, 12, 25⟩ ⟨2024, 1, 25⟩) ⟨2023, 12, 25⟩
        ⟨2024, 1, 25⟩).series_ingresos_diario.length = daysInMonth 2023 12 := by
  have h := claim4_daily_series [] [] ⟨2024, 1, 10⟩ ⟨2023, 12, 25⟩ ⟨2024, 1, 25⟩
    (by decide)
  exact ⟨h.1.1, h.1.2, h.2.1.1⟩

/-! ### Account balances (C3) -/

/-- C3 (confirmed).  The summary page's per-account balance is the account's
initial balance plus the signed sum over **all** of that account's
transactions (the account query in `resumen` carries no date filter), with
`signed_amount` positive exactly on income categories: first conjunct — the
`saldos` component of any successful `resumen` is cycle-independent and equal
to `saldos accounts cats txs`; second conjunct — each entry of that list is
`initial + Σ signed_amount` over the full history. -/
theorem claim3_account_balances :
    (∀ (cats : List Category) (accounts : List Account) (txs : List Transaction)
      (budgets : List Budget) (ref : Date) (out : ResumenOut),
      resumen cats accounts txs budgets ref = some out →
      out.saldos = saldos accounts cats txs) ∧
    (∀ (cats : List Category) (accounts : List Account) (txs : List Transaction)
      (p : Account × ℚ), p ∈ saldos accounts cats txs →
      p.2 = p.1.saldo_inicial +
        ((txs.filter (fun t => decide (t.account_id = p.1.id))).map
          (signed_amount cats)).sum) := by
  constructor
  · intro cats accounts txs budgets ref out h
    unfold resumen at h
    simp only [Option.bind_eq_some] at h
    obtain ⟨bounds, -, hout⟩ := h
    rw [Option.some_inj] at hout
    rw [← hout]
  · intro cats accounts txs p hp
    unfold saldos at hp
    rw [List.mem_map] at hp
    obtain ⟨a, -, hpa⟩ := hp
    rw [← hpa]

/-- Concrete data for the C3 witness: one account with initial balance 50,
one income transaction of 100 inside the displayed cycle and one expense of
30 in a different cycle. -/
def c3cats : List Category :=
  [⟨1, "Salario", "ingreso"⟩, ⟨2, "Supermercado", "gasto"⟩]

def c3accs : List Account := [⟨1, "Banco", 50⟩]

def c3txs : List Transaction :=
  [⟨1, ⟨2024, 1, 5⟩, "sueldo", 100, 1, 1⟩, ⟨2, ⟨2023, 11, 2⟩, "compra", 30, 1, 2⟩]

/-- C3 witness: the account entry shows `50 + 100 - 30 = 120`, counting the
transaction from the other cycle as well. -/
theorem claim3_witness :
    ((⟨1, "Banco", 50⟩, (120 : ℚ)) ∈ saldos c3accs c3cats c3txs) ∧
      (120 : ℚ) = (50 : ℚ) +
        ((c3txs.filter (fun t => decide (t.account_id = 1))).map
          (signed_amount c3cats)).sum := by
  have hmem : ((⟨1, "Banco", 50⟩, (120 : ℚ)) ∈ saldos c3accs c3cats c3txs) := by
    unfold saldos sortByNombre c3accs
    simp [List.mergeSort, c3txs, c3cats, signed_amount, findCat]
    norm_num
  exact ⟨hmem,
    claim3_account_balances.2 c3cats c3accs c3txs (⟨1, "Banco", 50⟩, (120 : ℚ)) hmem⟩

/-! ### Cycle totals (C8) -/

theorem gasLowerB_eq_not_ingLowerB {cats : List Category} {t : Transaction}
    (h : (findCat cats t.category_id).isSome) :
    gasLowerB cats t = !ingLowerB cats t := by
  unfold ingLowerB gasLowerB
  cases hfc : findCat cats t.category_id with
  | none => rw [hfc] at h; simp at h
  | some c => simp

theorem kpi_sum_split (cats : List Category) :
    ∀ l : List Transaction, (∀ t ∈ l, (findCat cats t.category_id).isSome) →
      ((l.filter (fun t => ingLowerB cats t)).map (fun t => t.importe)).sum +
        ((l.filter (fun t => gasLowerB cats t)).map (fun t => t.importe)).sum =
        (l.map (fun t => t.importe)).sum := by
  intro l
  induction l with
  | nil => intro h; simp
  | cons t rest ih =>
    intro h
    have ht := h t (List.mem_cons_self t rest)
    have hrest := ih fun x hx => h x (List.mem_cons_of_mem t hx)
    have hcompl := gasLowerB_eq_not_ingLowerB ht
    by_cases hI : ingLowerB cats t
    · rw [List.filter_cons_of_pos hI,
        List.filter_cons_of_neg (by simp [hcompl, hI])]
      simp only [List.map_cons, List.sum_cons]
      rw [← hrest]
      ring
    · have hIf : ingLowerB cats t = false := by simpa using hI
      rw [List.filter_cons_of_neg hI,
        List.filter_cons_of_pos (by simp [hcompl, hIf])]
      simp only [List.map_cons, List.sum_cons]
      rw [← hrest]
      ring

/-- Concrete data for the C8 scenario: income 1000 on 2024-01-05 and
expense 200 on 2024-01-10, both inside the cycle `[2023-12-25, 2024-01-25)`. -/
def c8cats : List Category :=
  [⟨1, "Salario", "ingreso"⟩, ⟨2, "Supermercado", "gasto"⟩]

def c8txs : List Transaction :=
  [⟨1, ⟨2024, 1, 5⟩, "nomina", 1000, 1, 1⟩, ⟨2, ⟨2024, 1, 10⟩, "compra", 200, 1, 2⟩]

/-- C8 (confirmed).  When every cycle transaction's category resolves (the
app forbids deleting a referenced category), the KPI computation partitions
the cycle's transactions: each one is counted in exactly one of the income or
expense totals, the two totals sum to the total of all cycle amounts, and the
balance equals income minus expense exactly; on the scenario data the totals
are 1000, 200 and 800. -/
theorem claim8_cycle_totals :
    (∀ (cats : List Category) (txs : List Transaction) (d1 d2 : Date),
      (∀ t ∈ cycleTx txs d1 d2, (findCat cats t.category_id).isSome) →
      (∀ t ∈ cycleTx txs d1 d2,
        (ingLowerB cats t = true ∧ gasLowerB cats t = false) ∨
          (ingLowerB cats t = false ∧ gasLowerB cats t = true)) ∧
      ingresosKPI cats (cycleTx txs d1 d2) + gastosKPI cats (cycleTx txs d1 d2) =
        ((cycleTx txs d1 d2).map (fun t => t.importe)).sum ∧
      balanceKPI cats (cycleTx txs d1 d2) =
        ingresosKPI cats (cycleTx txs d1 d2) - gastosKPI cats (cycleTx txs d1 d2)) ∧
    (ingresosKPI c8cats (cycleTx c8txs ⟨2023, 12, 25⟩ ⟨2024, 1, 25⟩) = 1000 ∧
      gastosKPI c8cats (cycleTx c8txs ⟨2023, 12, 25⟩ ⟨2024, 1, 25⟩) = 200 ∧
      balanceKPI c8cats (cycleTx c8txs ⟨2023, 12, 25⟩ ⟨2024, 1, 25⟩) = 800) := by
  constructor
  · intro cats txs d1 d2 hres
    refine ⟨?_, ?_, rfl⟩
    · intro t ht
      have hcompl := gasLowerB_eq_not_ingLowerB (hres t ht)
      by_cases hI : ingLowerB cats t
      · exact Or.inl ⟨hI, by rw [hcompl, hI]; rfl⟩
      · simp only [Bool.not_eq_true] at hI
        exact Or.inr ⟨hI, by rw [hcompl, hI]; rfl⟩
    · exact kpi_sum_split cats (cycleTx txs d1 d2) hres
  · have hcyc : cycleTx c8txs ⟨2023, 12, 25⟩ ⟨2024, 1, 25⟩ = c8txs := by
      unfold cycleTx c8txs
      rw [List.filter_cons_of_pos (by decide), List.filter_cons_of_pos (by decide)]
      rfl
    rw [hcyc]
    refine ⟨?_, ?_, ?_⟩
    · unfold ingresosKPI c8txs
      rw [List.filter_cons_of_pos (by decide), List.filter_cons_of_neg (by decide)]
      norm_num
    · unfold gastosKPI c8txs
      rw [List.filter_cons_of_neg (by decide), List.filter_cons_of_pos (by decide)]
      norm_num
    · unfold balanceKPI ingresosKPI gastosKPI c8txs
      rw [List.filter_cons_of_pos (by decide), List.filter_cons_of_neg (by decide),
        List.filter_cons_of_neg (by decide), List.filter_cons_of_pos (by decide)]
      norm_num

/-- C8 witness: the universal part applied to the scenario data. -/
theorem claim8_witness :
    ingresosKPI c8cats (cycleTx c8txs ⟨2023, 12, 25⟩ ⟨2024, 1, 25⟩) +
        gastosKPI c8cats (cycleTx c8txs ⟨2023, 12, 25⟩ ⟨2024, 1, 25⟩) =
      ((cycleTx c8txs ⟨2023, 12, 25⟩ ⟨2024, 1, 25⟩).map (fun t => t.importe)).sum ∧
    balanceKPI c8cats (cycleTx c8txs ⟨2023, 12, 25⟩ ⟨2024, 1, 25⟩) =
      ingresosKPI c8cats (cycleTx c8txs ⟨2023, 12, 25⟩ ⟨2024, 1, 25⟩) -
        gastosKPI c8cats (cycleTx c8txs ⟨2023, 12, 25⟩ ⟨2024, 1, 25⟩) := by
  have h := (claim8_cycle_totals.1 c8cats c8txs ⟨2023, 12, 25⟩ ⟨2024, 1, 25⟩
    (by decide))
  exact ⟨h.2.1, h.2.2⟩

/-! ### Goal tracker (C7) -/

/-- Concrete scenario goal: target 500, contributions 100 and 150. -/
def goal500 : Goal :=
  ⟨1, "Vacaciones", some 500,
    [⟨1, 1, ⟨2024, 1, 5⟩, 100⟩, ⟨2, 1, ⟨2024, 2, 5⟩, 150⟩]⟩

/-- C7 (confirmed).  `total_aportado` is the sum of the contribution amounts
(0 when there are none); `porcentaje` is 0 when the target is absent or zero
and `100 × total / target` otherwise, in particular exceeding 100 whenever
the contributions exceed a positive target (no clamping); target 500 with
contributions `[100, 150]` yields total 250 and percent 50. -/
theorem claim7_goal_percent :
    (∀ g : Goal, total_aportado g = (g.aportes.map (fun a => a.monto)).sum) ∧
    (∀ g : Goal, g.aportes = [] → total_aportado g = 0) ∧
    (∀ g : Goal, g.monto_objetivo = none ∨ g.monto_objetivo = some 0 →
      porcentaje g = 0) ∧
    (∀ (g : Goal) (t : ℚ), g.monto_objetivo = some t → t ≠ 0 →
      porcentaje g = 100 * (total_aportado g / t)) ∧
    (∀ (g : Goal) (t : ℚ), g.monto_objetivo = some t → 0 < t →
      t < total_aportado g → 100 < porcentaje g) ∧
    (total_aportado goal500 = 250 ∧ porcentaje goal500 = 50) := by
  have hformula : ∀ (g : Goal) (t : ℚ), g.monto_objetivo = some t → t ≠ 0 →
      porcentaje g = 100 * (total_aportado g / t) := by
    intro g t h ht
    unfold porcentaje
    rw [h]
    simp only [if_neg ht]
    ring
  refine ⟨fun g => rfl, ?_, ?_, hformula, ?_, ?_, ?_⟩
  · intro g h
    unfold total_aportado
    rw [h]
    rfl
  · intro g h
    rcases h with h | h <;> simp [porcentaje, h]
  · intro g t h ht hlt
    rw [hformula g t h (ne_of_gt ht)]
    have hdiv : 1 < total_aportado g / t := (one_lt_div ht).2 hlt
    have h2 := mul_lt_mul_of_pos_left hdiv (show (0:ℚ) < 100 by norm_num)
    simpa using h2
  · norm_num [total_aportado, goal500]
  · norm_num [porcentaje, total_aportado, goal500]

/-- Concrete overshoot goal for the C7 witness: target 200, contributed 300. -/
def goalOver : Goal := ⟨2, "Sobre", some 200, [⟨3, 2, ⟨2024, 1, 5⟩, 300⟩]⟩

/-- C7 witness: the percent formula applied at a goal whose contributions
exceed the target, showing the unclamped overshoot. -/
theorem claim7_witness :
    porcentaje goalOver = 100 * (total_aportado goalOver / 200) ∧
      100 < porcentaje goalOver :=
  ⟨claim7_goal_percent.2.2.2.1 goalOver 200 rfl (by norm_num),
    claim7_goal_percent.2.2.2.2.1 goalOver 200 rfl (by norm_num)
      (by norm_num [total_aportado, goalOver])⟩

/-! ### Agreement of the category-type classifiers (C10) -/

/-- C10 (confirmed).  On every category-type string the application can store
(`categories_index` only accepts `'ingreso'` and `'gasto'`), the
case-sensitive test of `Transaction.signed_amount`, the `lower()` test of the
KPIs and the `strip().lower()` test of the charts all agree; consequently a
transaction counted in the cycle income total contributes `+importe` to its
account balance, and one counted as expense contributes `-importe`. -/
theorem claim10_classifiers_agree :
    ∀ (cats : List Category) (t : Transaction) (c : Category),
      findCat cats t.category_id = some c → validTipo c.tipo →
      ((ingLowerB cats t = true ↔ c.tipo = "ingreso") ∧
        ingStripB cats t = ingLowerB cats t ∧
        (ingLowerB cats t = true → signed_amount cats t = t.importe) ∧
        (ingLowerB cats t = false → signed_amount cats t = -t.importe)) := by
  intro cats t c hfc hv
  unfold ingLowerB ingStripB signed_amount
  simp only [hfc]
  rcases hv with h | h <;> rw [h]
  · refine ⟨?_, ?_, ?_, ?_⟩
    · simp [show (sLower "ingreso" == "ingreso") = true from by decide]
    · rw [show (sLower (sTrim "ingreso") == "ingreso") = true from by decide,
        show (sLower "ingreso" == "ingreso") = true from by decide]
    · intro hx
      rw [if_pos rfl]
    · intro hx
      rw [show (sLower "ingreso" == "ingreso") = true from by decide] at hx
      exact absurd hx (by simp)
  · refine ⟨?_, ?_, ?_, ?_⟩
    · rw [show (sLower "gasto" == "ingreso") = false from by decide]
      simp [show ¬(("gasto" : String) = "ingreso") from by decide]
    · rw [show (sLower (sTrim "gasto") == "ingreso") = false from by decide,
        show (sLower "gasto" == "ingreso") = false from by decide]
    · intro hx
      rw [show (sLower "gasto" == "ingreso") = false from by decide] at hx
      exact absurd hx (by simp)
    · intro hx
      rw [if_neg (show ¬(("gasto" : String) = "ingreso") from by decide)]

/-- C10 witness: the agreement applied to a stored income category. -/
theorem claim10_witness :
    (ingLowerB [⟨1, "Salario", "ingreso"⟩] ⟨1, ⟨2024, 1, 5⟩, "x", 10, 1, 1⟩ = true ↔
      ("ingreso" : String) = "ingreso") ∧
    ingStripB [⟨1, "Salario", "ingreso"⟩] ⟨1, ⟨2024, 1, 5⟩, "x", 10, 1, 1⟩ =
      ingLowerB [⟨1, "Salario", "ingreso"⟩] ⟨1, ⟨2024, 1, 5⟩, "x", 10, 1, 1⟩ ∧
    (ingLowerB [⟨1, "Salario", "ingreso"⟩] ⟨1, ⟨2024, 1, 5⟩, "x", 10, 1, 1⟩ = true →
      signed_amount [⟨1, "Salario", "ingreso"⟩] ⟨1, ⟨2024, 1, 5⟩, "x", 10, 1, 1⟩ =
        (10 : ℚ)) ∧
    (ingLowerB [⟨1, "Salario", "ingreso"⟩] ⟨1, ⟨2024, 1, 5⟩, "x", 10, 1, 1⟩ = false →
      signed_amount [⟨1, "Salario", "ingreso"⟩] ⟨1, ⟨2024, 1, 5⟩, "x", 10, 1, 1⟩ =
        -(10 : ℚ)) :=
  claim10_classifiers_agree [⟨1, "Salario", "ingreso"⟩]
    ⟨1, ⟨2024, 1, 5⟩, "x", 10, 1, 1⟩ ⟨1, "Salario", "ingreso"⟩
    (by decide) (Or.inl rfl)

/-! ### Budget versus actual (C6) -/

theorem lexLe_total : ∀ a b : List ℕ, (lexLe a b || lexLe b a) = true := by
  intro a
  induction a with
  | nil => intro b; simp [lexLe]
  | cons x xs ih =>
    intro b
    cases b with
    | nil => simp [lexLe]
    | cons y ys =>
      rcases Nat.lt_trichotomy x y with h | h | h
      · simp [lexLe, h]
      · subst h
        simpa [lexLe] using ih ys
      · simp [lexLe, h, Nat.lt_asymm h]

theorem lexLe_trans :
    ∀ a b c : List ℕ, lexLe a b = true → lexLe b c = true → lexLe a c = true := by
  intro a
  induction a with
  | nil => intro b c h1 h2; simp [lexLe]
  | cons x xs ih =>
    intro b c h1 h2
    cases b with
    | nil => simp [lexLe] at h1
    | cons y ys =>
      cases c with
      | nil => simp [lexLe] at h2
      | cons z zs =>
        simp only [lexLe] at h1 h2 ⊢
        rcases Nat.lt_trichotomy x y with hxy | hxy | hxy
        · rcases Nat.lt_trichotomy y z with hyz | hyz | hyz
          · rw [if_pos (by omega)]
          · subst hyz
            rw [if_pos hxy]
          · rw [if_neg (by omega), if_pos hyz] at h2
            exact absurd h2 (by simp)
        · subst hxy
          rw [if_neg (by omega), if_neg (by omega)] at h1
          rcases Nat.lt_trichotomy x z with hxz | hxz | hxz
          · rw [if_pos hxz]
          · subst hxz
            rw [if_neg (by omega), if_neg (by omega)] at h2
            rw [if_neg (by omega), if_neg (by omega)]
            exact ih ys zs h1 h2
          · rw [if_neg (by omega), if_pos hxz] at h2
            exact absurd h2 (by simp)
        · rw [if_neg (by omega), if_pos hxy] at h1
          exact absurd h1 (by simp)

theorem dfind_dset {K V : Type} [DecidableEq K] :
    ∀ (m : List (K × V)) (k k' : K) (v : V),
      dfind (dset m k v) k' = if k' = k then some v else dfind m k' := by
  intro m k k' v
  induction m with
  | nil =>
    by_cases h : k' = k
    · simp [dset, dfind, h]
    · have h2 : ¬k = k' := fun hc => h hc.symm
      simp [dset, dfind, h, h2]
  | cons p rest ih =>
    by_cases hp : p.1 = k
    · by_cases h : k' = k
      · simp [dset, dfind, hp, h]
      · have h2 : ¬k = k' := fun hc => h hc.symm
        simp [dset, dfind, hp, h, h2]
    · by_cases hpk : p.1 = k'
      · simp [dset, dfind, hp, hpk, ih,
          show ¬k' = k from fun hc => hp (hpk.trans hc)]
      · simp [dset, dfind, hp, hpk, ih]

theorem mem_dkeys_iff_dfind {K V : Type} [DecidableEq K] :
    ∀ (m : List (K × V)) (k : K), k ∈ dkeys m ↔ (dfind m k).isSome := by
  intro m k
  induction m with
  | nil => simp [dkeys, dfind]
  | cons p rest ih =>
    rw [show dkeys (p :: rest) = p.1 :: dkeys rest from rfl, List.mem_cons]
    by_cases h : p.1 = k
    · simp [dfind, h]
    · have h2 : ¬k = p.1 := fun hc => h hc.symm
      rw [show dfind (p :: rest) k = dfind rest k from by simp [dfind, h], ← ih]
      simp [h2]

theorem mem_dkeys_dadd {K : Type} [DecidableEq K] :
    ∀ (m : List (K × ℚ)) (k : K) (v : ℚ) (q : K),
      q ∈ dkeys (dadd m k v) ↔ q ∈ dkeys m ∨ q = k := by
  intro m k v q
  induction m with
  | nil => simp [dadd, dkeys]
  | cons p rest ih =>
    by_cases h : p.1 = k
    · simp only [dadd, if_pos h, dkeys, List.map_cons, List.mem_cons]
      constructor
      · intro hx
        rcases hx with hx | hx
        · exact Or.inl (Or.inl hx)
        · exact Or.inl (Or.inr hx)
      · intro hx
        rcases hx with (hx | hx) | hx
        · exact Or.inl hx
        · exact Or.inr hx
        · subst hx; exact Or.inl h.symm
    · simp only [dadd, if_neg h, dkeys, List.map_cons, List.mem_cons] at ih ⊢
      rw [ih]
      tauto

theorem mem_dkeys_dset {K V : Type} [DecidableEq K] :
    ∀ (m : List (K × V)) (k : K) (v : V) (q : K),
      q ∈ dkeys (dset m k v) ↔ q ∈ dkeys m ∨ q = k := by
  intro m k v q
  induction m with
  | nil => simp [dset, dkeys]
  | cons p rest ih =>
    by_cases h : p.1 = k
    · simp only [dset, if_pos h, dkeys, List.map_cons, List.mem_cons]
      constructor
      · intro hx
        rcases hx with hx | hx
        · exact Or.inr hx
        · exact Or.inl (Or.inr hx)
      · intro hx
        rcases hx with (hx | hx) | hx
        · subst hx; exact Or.inl h
        · exact Or.inr hx
        · exact Or.inl hx
    · simp only [dset, if_neg h, dkeys, List.map_cons, List.mem_cons] at ih ⊢
      rw [ih]
      tauto

theorem dkeys_nodup_dadd {K : Type} [DecidableEq K]
    (m : List (K × ℚ)) (k : K) (v : ℚ) (h : (dkeys m).Nodup) :
    (dkeys (dadd m k v)).Nodup := by
  induction m with
  | nil => simp [dadd, dkeys]
  | cons p rest ih =>
    simp only [dkeys, List.map_cons, List.nodup_cons] at h
    by_cases hp : p.1 = k
    · simp only [dadd, if_pos hp, dkeys, List.map_cons, List.nodup_cons]
      exact h
    · simp only [dadd, if_neg hp, dkeys, List.map_cons, List.nodup_cons]
      refine ⟨?_, ih h.2⟩
      intro hc
      rw [show (dadd rest k v).map (fun p => p.1) = dkeys (dadd rest k v) from rfl,
        mem_dkeys_dadd] at hc
      rcases hc with hc | hc
      · exact h.1 hc
      · exact hp hc

theorem dkeys_nodup_dset {K V : Type} [DecidableEq K]
    (m : List (K × V)) (k : K) (v : V) (h : (dkeys m).Nodup) :
    (dkeys (dset m k v)).Nodup := by
  induction m with
  | nil => simp [dset, dkeys]
  | cons p rest ih =>
    simp only [dkeys, List.map_cons, List.nodup_cons] at h
    by_cases hp : p.1 = k
    · simp only [dset, if_pos hp, dkeys, List.map_cons, List.nodup_cons]
      rw [← hp]
      exact h
    · simp only [dset, if_neg hp, dkeys, List.map_cons, List.nodup_cons]
      refine ⟨?_, ih h.2⟩
      intro hc
      rw [show (dset rest k v).map (fun p => p.1) = dkeys (dset rest k v) from rfl,
        mem_dkeys_dset] at hc
      rcases hc with hc | hc
      · exact h.1 hc
      · exact hp hc

theorem spentByCat_keys_nodup (cats : List Category) :
    ∀ (txc : List Transaction) (m0 : List (ℕ × ℚ)), (dkeys m0).Nodup →
      (dkeys (txc.foldl (fun m t =>
        if gasStripB cats t then dadd m t.category_id t.importe else m) m0)).Nodup := by
  intro txc
  induction txc with
  | nil => intro m0 h; exact h
  | cons t rest ih =>
    intro m0 h
    simp only [List.foldl_cons]
    by_cases hg : gasStripB cats t
    · rw [if_pos hg]
      exact ih _ (dkeys_nodup_dadd m0 t.category_id t.importe h)
    · rw [if_neg hg]
      exact ih _ h

theorem budgetByCat_keys_nodup (cats : List Category) (budgets : List Budget)
    (d1 : Date) : (dkeys (budgetByCat cats budgets d1)).Nodup := by
  unfold budgetByCat
  cases budgets.find? (fun b => decide (b.cycle_start = d1)) with
  | none => simp [dkeys]
  | some b =>
    suffices h : ∀ (ls : List BudgetLine) (m0 : List (ℕ × ℚ)), (dkeys m0).Nodup →
        (dkeys (ls.foldl (fun m bl =>
          match findCat cats bl.category_id with
          | none => m
          | some c =>
            if sLower (sTrim c.tipo) == "ingreso" then m
            else dset m bl.category_id bl.amount) m0)).Nodup by
      exact h b.lines [] (by simp [dkeys])
    intro ls
    induction ls with
    | nil => intro m0 h; exact h
    | cons bl rest ih =>
      intro m0 h
      simp only [List.foldl_cons]
      cases hfc : findCat cats bl.category_id with
      | none => exact ih _ h
      | some c =>
        by_cases hing : (sLower (sTrim c.tipo) == "ingreso") = true
        · simp only [hing, if_true]
          exact ih _ h
        · simp only [hing, if_false]
          exact ih _ (dkeys_nodup_dset m0 bl.category_id bl.amount h)

theorem budget_fold_spec (cats : List Category) (Q : ℕ → ℚ → Prop) :
    ∀ (ls : List BudgetLine) (m0 : List (ℕ × ℚ)),
      (∀ k v, dfind m0 k = some v → Q k v) →
      (∀ bl ∈ ls, ∀ c, findCat cats bl.category_id = some c →
        (sLower (sTrim c.tipo) == "ingreso") = false → Q bl.category_id bl.amount) →
      ∀ k v, dfind (ls.foldl (fun m bl =>
          match findCat cats bl.category_id with
          | none => m
          | some c =>
            if sLower (sTrim c.tipo) == "ingreso" then m
            else dset m bl.category_id bl.amount) m0) k = some v → Q k v := by
  intro ls
  induction ls with
  | nil => intro m0 hm hls; exact hm
  | cons bl rest ih =>
    intro m0 hm hls
    simp only [List.foldl_cons]
    have hrest : ∀ l ∈ rest, ∀ c, findCat cats l.category_id = some c →
        (sLower (sTrim c.tipo) == "ingreso") = false → Q l.category_id l.amount :=
      fun l hl => hls l (List.mem_cons_of_mem bl hl)
    cases hfc : findCat cats bl.category_id with
    | none => exact ih m0 hm hrest
    | some c =>
      by_cases hing : (sLower (sTrim c.tipo) == "ingreso") = true
      · simp only [hing, if_true]
        exact ih m0 hm hrest
      · simp only [hing, if_false]
        refine ih (dset m0 bl.category_id bl.amount) ?_ hrest
        intro k v hkv
        rw [dfind_dset] at hkv
        by_cases hk : k = bl.category_id
        · rw [if_pos hk, Option.some_inj] at hkv
          rw [hk, ← hkv]
          exact hls bl (List.mem_cons_self bl rest) c hfc (by simpa using hing)
        · rw [if_neg hk] at hkv
          exact hm k v hkv

theorem budgetByCat_spec (cats : List Category) (budgets : List Budget)
    (d1 : Date) :
    ∀ k v, dfind (budgetByCat cats budgets d1) k = some v →
      ∃ b, budgets.find? (fun b => decide (b.cycle_start = d1)) = some b ∧
        ∃ c, findCat cats k = some c ∧
          (sLower (sTrim c.tipo) == "ingreso") = false ∧
          ∃ bl ∈ b.lines, bl.category_id = k ∧ bl.amount = v := by
  unfold budgetByCat
  cases hb : budgets.find? (fun b => decide (b.cycle_start = d1)) with
  | none => intro k v h; simp [dfind] at h
  | some b =>
    intro k v h
    refine ⟨b, rfl, ?_⟩
    refine budget_fold_spec cats
      (fun k v => ∃ c, findCat cats k = some c ∧
        (sLower (sTrim c.tipo) == "ingreso") = false ∧
        ∃ bl ∈ b.lines, bl.category_id = k ∧ bl.amount = v)
      b.lines [] (fun k v hkv => by simp [dfind] at hkv) ?_ k v h
    intro bl hbl c hfc hing
    exact ⟨c, hfc, hing, bl, hbl, rfl, rfl⟩

/-- C6 (confirmed).  The budget-versus-actual chart is built from the budget
row whose `cycle_start` equals the cycle's start (and from nothing else of
the budget table); its planned mapping contains only existing expense
categories, with values coming from that row's lines; and the reported id
list is exactly the union of categories with a plan or with actual cycle
spend, without duplicates, ordered by category name. -/
theorem claim6_budget_vs_actual :
    ∀ (cats : List Category) (txs : List Transaction) (budgets : List Budget)
      (d1 d2 : Date),
      (∀ k, k ∈ allCatIds cats budgets d1 (cycleTx txs d1 d2) ↔
        ((dfind (budgetByCat cats budgets d1) k).isSome ∨
          (dfind (spentByCat cats (cycleTx txs d1 d2)) k).isSome)) ∧
      (allCatIds cats budgets d1 (cycleTx txs d1 d2)).Pairwise
        (fun k1 k2 => sLe (catKey cats k1) (catKey cats k2) = true) ∧
      (allCatIds cats budgets d1 (cycleTx txs d1 d2)).Nodup ∧
      (∀ k v, dfind (budgetByCat cats budgets d1) k = some v →
        ∃ b, budgets.find? (fun b => decide (b.cycle_start = d1)) = some b ∧
          ∃ c, findCat cats k = some c ∧
            (sLower (sTrim c.tipo) == "ingreso") = false ∧
            ∃ bl ∈ b.lines, bl.category_id = k ∧ bl.amount = v) ∧
      (∀ budgets2, budgets.find? (fun b => decide (b.cycle_start = d1)) =
          budgets2.find? (fun b => decide (b.cycle_start = d1)) →
        budgetByCat cats budgets2 d1 = budgetByCat cats budgets d1) := by
  intro cats txs budgets d1 d2
  refine ⟨?_, ?_, ?_, budgetByCat_spec cats budgets d1, ?_⟩
  · intro k
    unfold allCatIds
    rw [List.mem_mergeSort, List.mem_append, List.mem_filter,
      ← mem_dkeys_iff_dfind, ← mem_dkeys_iff_dfind]
    by_cases hkb : k ∈ dkeys (budgetByCat cats budgets d1) <;> simp [hkb]
  · exact List.sorted_mergeSort
      (fun a b c => lexLe_trans (strKey (catKey cats a)) (strKey (catKey cats b))
        (strKey (catKey cats c)))
      (fun a b => lexLe_total (strKey (catKey cats a)) (strKey (catKey cats b))) _
  · unfold allCatIds
    rw [(List.mergeSort_perm _ _).nodup_iff]
    refine List.Nodup.append ?_ ?_ ?_
    · exact budgetByCat_keys_nodup cats budgets d1
    · exact List.Nodup.filter _
        (spentByCat_keys_nodup cats (cycleTx txs d1 d2) [] (by simp [dkeys]))
    · intro a ha hb
      rw [List.mem_filter] at hb
      simp at hb
      exact hb.2 ha
  · intro budgets2 h
    unfold budgetByCat
    rw [← h]

/-- Concrete data for the C6 witness: a budget of 400 for category 1
(expense "Alquiler") in the cycle starting 2023-12-25, and one cycle
transaction spending 50 on category 2 (expense "Comida"). -/
def c6cats : List Category :=
  [⟨1, "Alquiler", "gasto"⟩, ⟨2, "Comida", "gasto"⟩, ⟨3, "Salario", "ingreso"⟩]

def c6budgets : List Budget := [⟨1, ⟨2023, 12, 25⟩, 0, [⟨1, 1, 400⟩]⟩]

def c6txs : List Transaction := [⟨1, ⟨2024, 1, 5⟩, "super", 50, 1, 2⟩]

/-- C6 witness: category 1 is reported (it has a plan), and its plan of 400
comes from the budget row keyed by the cycle start. -/
theorem claim6_witness :
    ((1 : ℕ) ∈ allCatIds c6cats c6budgets ⟨2023, 12, 25⟩
        (cycleTx c6txs ⟨2023, 12, 25⟩ ⟨2024, 1, 25⟩)) ∧
      ∃ b, c6budgets.find? (fun b => decide (b.cycle_start = ⟨2023, 12, 25⟩)) =
          some b ∧
        ∃ c, findCat c6cats 1 = some c ∧
          (sLower (sTrim c.tipo) == "ingreso") = false ∧
          ∃ bl ∈ b.lines, bl.category_id = 1 ∧ bl.amount = (400 : ℚ) := by
  have h := claim6_budget_vs_actual c6cats c6txs c6budgets ⟨2023, 12, 25⟩
    ⟨2024, 1, 25⟩
  have hfind : dfind (budgetByCat c6cats c6budgets ⟨2023, 12, 25⟩) 1 =
      some 400 := rfl
  exact ⟨(h.1 1).2 (Or.inl (by rw [hfind]; rfl)), h.2.2.2.1 1 400 hfind⟩

/-! ### The budget editor (C5) -/

theorem filter_map_invariant {α : Type} (p : α → Bool) (f : α → α) :
    ∀ l : List α, (∀ x, p (f x) = p x) → (∀ x ∈ l, p x = true → f x = x) →
      (l.map f).filter p = l.filter p := by
  intro l hp hfix
  induction l with
  | nil => rfl
  | cons x rest ih =>
    rw [List.map_cons]
    by_cases hx : p x = true
    · rw [List.filter_cons_of_pos (by rw [hp]; exact hx),
        List.filter_cons_of_pos hx, hfix x (List.mem_cons_self x rest) hx,
        ih fun y hy => hfix y (List.mem_cons_of_mem x hy)]
    · rw [List.filter_cons_of_neg (by rw [hp]; exact hx),
        List.filter_cons_of_neg hx,
        ih fun y hy => hfix y (List.mem_cons_of_mem x hy)]

theorem filter_map_comm {α : Type} (p : α → Bool) (f : α → α)
    (hp : ∀ x, p (f x) = p x) :
    ∀ l : List α, (l.map f).filter p = (l.filter p).map f := by
  intro l
  induction l with
  | nil => rfl
  | cons x rest ih =>
    rw [List.map_cons]
    by_cases hx : p x = true
    · rw [List.filter_cons_of_pos (by rw [hp]; exact hx),
        List.filter_cons_of_pos hx, List.map_cons, ih]
    · rw [List.filter_cons_of_neg (by rw [hp]; exact hx),
        List.filter_cons_of_neg hx, ih]

theorem filter_filter_frame {α : Type} (p q : α → Bool) :
    ∀ l : List α, (∀ x ∈ l, p x = true → q x = true) →
      (l.filter q).filter p = l.filter p := by
  intro l
  induction l with
  | nil => intro h; rfl
  | cons x rest ih =>
    intro h
    by_cases hq : q x = true
    · rw [List.filter_cons_of_pos hq, List.filter_cons]
      rw [List.filter_cons]
      rw [ih fun y hy => h y (List.mem_cons_of_mem x hy)]
    · have hp : ¬p x = true := fun hc => hq (h x (List.mem_cons_self x rest) hc)
      rw [List.filter_cons_of_neg hq, List.filter_cons_of_neg hp,
        ih fun y hy => h y (List.mem_cons_of_mem x hy)]

theorem filter_singleton_of_nodup {k : ℕ} :
    ∀ (ls : List BudgetLine), (ls.map (fun l => l.category_id)).Nodup →
      ∀ l0 ∈ ls, l0.category_id = k →
        ls.filter (fun l => decide (l.category_id = k)) = [l0] := by
  intro ls
  induction ls with
  | nil => intro h l0 h0; simp at h0
  | cons x rest ih =>
    intro hnd l0 hl0 hl0k
    rw [List.map_cons, List.nodup_cons] at hnd
    rcases List.mem_cons.1 hl0 with rfl | hmem
    · rw [List.filter_cons_of_pos (by simpa using hl0k)]
      rw [List.filter_eq_nil_iff.2]
      intro y hy
      simp only [decide_eq_true_eq]
      intro hyk
      exact hnd.1 (hl0k ▸ hyk ▸ List.mem_map_of_mem (fun l => l.category_id) hy)
    · have hxk : ¬x.category_id = k := by
        intro hc
        exact hnd.1 (hc ▸ hl0k ▸ List.mem_map_of_mem (fun l => l.category_id) hmem)
      rw [List.filter_cons_of_neg (by simpa using hxk)]
      exact ih hnd.2 l0 hmem hl0k

theorem dset_fold_spec {α K V : Type} [DecidableEq K] (key : α → K) (val : α → V)
    (Q : K → V → Prop) :
    ∀ (ls : List α) (m0 : List (K × V)),
      (∀ k v, dfind m0 k = some v → Q k v) →
      (∀ a ∈ ls, Q (key a) (val a)) →
      ∀ k v, dfind (ls.foldl (fun m a => dset m (key a) (val a)) m0) k = some v →
        Q k v := by
  intro ls
  induction ls with
  | nil => intro m0 hm hls; exact hm
  | cons a rest ih =>
    intro m0 hm hls
    simp only [List.foldl_cons]
    refine ih (dset m0 (key a) (val a)) ?_
      (fun b hb => hls b (List.mem_cons_of_mem a hb))
    intro k v hkv
    rw [dfind_dset] at hkv
    by_cases hk : k = key a
    · rw [if_pos hk, Option.some_inj] at hkv
      rw [hk, ← hkv]
      exact hls a (List.mem_cons_self a rest)
    · rw [if_neg hk] at hkv
      exact hm k v hkv

theorem dset_fold_isSome {α K V : Type} [DecidableEq K] (key : α → K)
    (val : α → V) :
    ∀ (ls : List α) (m0 : List (K × V)) (q : K),
      (dfind (ls.foldl (fun m a => dset m (key a) (val a)) m0) q).isSome ↔
        (∃ a ∈ ls, key a = q) ∨ (dfind m0 q).isSome := by
  intro ls
  induction ls with
  | nil => intro m0 q; simp
  | cons a rest ih =>
    intro m0 q
    simp only [List.foldl_cons]
    rw [ih]
    by_cases hq : q = key a
    · subst hq
      simp [dfind_dset]
    · constructor
      · intro h
        rcases h with h | h
        · exact Or.inl ⟨_, List.mem_cons_of_mem a h.choose_spec.1, h.choose_spec.2⟩
        · rw [dfind_dset, if_neg hq] at h
          exact Or.inr h
      · intro h
        rcases h with ⟨b, hb, hbq⟩ | h
        · rcases List.mem_cons.1 hb with rfl | hb2
          · exact absurd hbq.symm hq
          · exact Or.inl ⟨b, hb2, hbq⟩
        · right
          rw [dfind_dset, if_neg hq]
          exact h

theorem current_spec_find (lines0 : List BudgetLine) :
    ∀ q lid,
      dfind (lines0.foldl (fun m bl => dset m bl.category_id bl.id) []) q =
          some lid →
        ∃ l0 ∈ lines0, l0.category_id = q ∧ l0.id = lid := by
  intro q lid h
  exact dset_fold_spec (fun bl => bl.category_id) (fun bl => bl.id)
    (fun k v => ∃ l0 ∈ lines0, l0.category_id = k ∧ l0.id = v) lines0 []
    (fun k v hkv => by simp [dfind] at hkv)
    (fun bl hbl => ⟨bl, hbl, rfl, rfl⟩) q lid h

theorem current_spec_isSome (lines0 : List BudgetLine) (q : ℕ) :
    (dfind (lines0.foldl (fun m bl => dset m bl.category_id bl.id) []) q).isSome ↔
      ∃ l0 ∈ lines0, l0.category_id = q := by
  rw [dset_fold_isSome (fun bl => bl.category_id) (fun bl => bl.id) lines0 [] q]
  simp [dfind]

theorem no_id_clash {lines0 : List BudgetLine} {fresh0 : ℕ}
    {st : List BudgetLine × ℕ}
    (hlid : (lines0.map (fun l => l.id)).Nodup)
    (hfr : ∀ l ∈ lines0, l.id < fresh0)
    (hinv : stepINV lines0 fresh0 st) {lid q : ℕ}
    (hl0 : ∃ l0 ∈ lines0, l0.category_id = q ∧ l0.id = lid) {k : ℕ}
    (hk : q ≠ k) :
    ∀ x ∈ st.1, x.category_id = k → ¬x.id = lid := by
  intro x hx hxk hxid
  obtain ⟨l0, hl0m, hl0c, hl0i⟩ := hl0
  have hlt : x.id < fresh0 := by
    have := hfr l0 hl0m
    omega
  obtain ⟨l00, hl00m, hl00i, hl00c⟩ := hinv.2.2 x hx hlt
  have heq : l00 = l0 :=
    List.inj_on_of_nodup_map hlid hl00m hl0m (by rw [hl00i, hxid, hl0i])
  rw [heq, hl0c] at hl00c
  rw [← hl00c] at hxk
  exact hk hxk

theorem budgetStep_inv {lines0 : List BudgetLine} {fresh0 : ℕ}
    (current : List (ℕ × ℕ)) (form : ℕ → SubVal) (st : List BudgetLine × ℕ)
    (c : Category) (hinv : stepINV lines0 fresh0 st) :
    stepINV lines0 fresh0 (budgetStep current form st c) := by
  obtain ⟨h1, h2, h3⟩ := hinv
  have hmap : ∀ (amt : ℚ) (lid : ℕ),
      stepINV lines0 fresh0
        (st.1.map (fun l => if l.id = lid then ⟨l.id, l.category_id, amt⟩ else l),
          st.2) := by
    intro amt lid
    refine ⟨?_, h2, ?_⟩
    · intro l hl
      rw [List.mem_map] at hl
      obtain ⟨x, hx, rfl⟩ := hl
      by_cases hxid : x.id = lid
      · simpa [hxid] using h1 x hx
      · simpa [hxid] using h1 x hx
    · intro l hl hlt
      rw [List.mem_map] at hl
      obtain ⟨x, hx, rfl⟩ := hl
      by_cases hxid : x.id = lid
      · simp only [if_pos hxid, blmk_id, blmk_category] at hlt ⊢
        exact h3 x hx hlt
      · simp only [if_neg hxid] at hlt ⊢
        exact h3 x hx hlt
  have hfil : ∀ lid : ℕ,
      stepINV lines0 fresh0 (st.1.filter (fun l => decide (l.id ≠ lid)), st.2) :=
    fun lid => ⟨fun l hl => h1 l (List.mem_of_mem_filter hl), h2,
      fun l hl => h3 l (List.mem_of_mem_filter hl)⟩
  have happ : ∀ amt : ℚ,
      stepINV lines0 fresh0 (st.1 ++ [⟨st.2, c.id, amt⟩], st.2 + 1) := by
    intro amt
    refine ⟨?_, by omega, ?_⟩
    · intro l hl
      rcases List.mem_append.1 hl with h | h
      · have := h1 l h
        omega
      · rw [List.mem_singleton] at h
        subst h
        simp only [blmk_id]
        omega
    · intro l hl hlt
      rcases List.mem_append.1 hl with h | h
      · exact h3 l h hlt
      · rw [List.mem_singleton] at h
        subst h
        simp only [blmk_id] at hlt
        omega
  unfold budgetStep
  cases hform : form c.id with
  | blank => exact ⟨h1, h2, h3⟩
  | amount a =>
    simp only [subAmt]
    by_cases h0 : 0 < a
    · rw [if_pos h0]
      cases hfind : dfind current c.id with
      | some lid => exact hmap a lid
      | none => exact happ a
    · rw [if_neg h0]
      cases hfind : dfind current c.id with
      | some lid => exact hfil lid
      | none => exact ⟨h1, h2, h3⟩
  | bad =>
    simp only [subAmt]
    rw [if_neg (by norm_num)]
    cases hfind : dfind current c.id with
    | some lid => exact hfil lid
    | none => exact ⟨h1, h2, h3⟩

theorem budgetStep_frame {lines0 : List BudgetLine} {fresh0 : ℕ}
    {current : List (ℕ × ℕ)} (form : ℕ → SubVal)
    (hlid : (lines0.map (fun l => l.id)).Nodup)
    (hfr : ∀ l ∈ lines0, l.id < fresh0)
    (hcur : ∀ q lid, dfind current q = some lid →
      ∃ l0 ∈ lines0, l0.category_id = q ∧ l0.id = lid)
    (st : List BudgetLine × ℕ) (c : Category) (k : ℕ) (hk : ¬c.id = k)
    (hinv : stepINV lines0 fresh0 st) :
    linesFor k (budgetStep current form st c).1 = linesFor k st.1 := by
  have hdel : ∀ lid, dfind current c.id = some lid →
      linesFor k (st.1.filter (fun l => decide (l.id ≠ lid))) =
        linesFor k st.1 := by
    intro lid hfind
    have hclash := no_id_clash hlid hfr hinv (by
      obtain ⟨l0, hm, hc, hi⟩ := hcur c.id lid hfind
      exact ⟨l0, hm, hc, hi⟩) hk
    unfold linesFor
    apply filter_filter_frame
    intro x hx hxk
    rw [decide_eq_true_eq] at hxk
    simp [hclash x hx hxk]
  unfold budgetStep
  cases hform : form c.id with
  | blank => rfl
  | amount a =>
    simp only [subAmt]
    by_cases h0 : 0 < a
    · rw [if_pos h0]
      cases hfind : dfind current c.id with
      | some lid =>
        have hclash := no_id_clash hlid hfr hinv (by
          obtain ⟨l0, hm, hc, hi⟩ := hcur c.id lid hfind
          exact ⟨l0, hm, hc, hi⟩) hk
        unfold linesFor
        apply filter_map_invariant
        · intro x
          by_cases hxid : x.id = lid <;> simp [hxid]
        · intro x hx hxk
          rw [decide_eq_true_eq] at hxk
          rw [if_neg (hclash x hx hxk)]
      | none =>
        unfold linesFor
        rw [List.filter_append]
        simp [hk]
    · rw [if_neg h0]
      cases hfind : dfind current c.id with
      | some lid => exact hdel lid hfind
      | none => rfl
  | bad =>
    simp only [subAmt]
    rw [if_neg (by norm_num)]
    cases hfind : dfind current c.id with
    | some lid => exact hdel lid hfind
    | none => rfl

theorem budgetFold_frame {lines0 : List BudgetLine} {fresh0 : ℕ}
    {current : List (ℕ × ℕ)} (form : ℕ → SubVal)
    (hlid : (lines0.map (fun l => l.id)).Nodup)
    (hfr : ∀ l ∈ lines0, l.id < fresh0)
    (hcur : ∀ q lid, dfind current q = some lid →
      ∃ l0 ∈ lines0, l0.category_id = q ∧ l0.id = lid) :
    ∀ (cs : List Category) (st : List BudgetLine × ℕ) (k : ℕ),
      stepINV lines0 fresh0 st → (∀ c ∈ cs, ¬c.id = k) →
      linesFor k (cs.foldl (budgetStep current form) st).1 = linesFor k st.1 ∧
        stepINV lines0 fresh0 (cs.foldl (budgetStep current form) st) := by
  intro cs
  induction cs with
  | nil => intro st k hinv hcs; exact ⟨rfl, hinv⟩
  | cons c rest ih =>
    intro st k hinv hcs
    simp only [List.foldl_cons]
    have hstep := budgetStep_frame form hlid hfr hcur st c k
      (hcs c (List.mem_cons_self c rest)) hinv
    have hinv2 := budgetStep_inv current form st c hinv
    obtain ⟨hf, hi⟩ := ih (budgetStep current form st c) k hinv2
      (fun x hx => hcs x (List.mem_cons_of_mem c hx))
    exact ⟨hf.trans hstep, hi⟩

theorem budgetStep_effect {lines0 : List BudgetLine}
    {current : List (ℕ × ℕ)} (form : ℕ → SubVal)
    (hlcat : (lines0.map (fun l => l.category_id)).Nodup)
    (hcur : ∀ q lid, dfind current q = some lid →
      ∃ l0 ∈ lines0, l0.category_id = q ∧ l0.id = lid)
    (hcurS : ∀ q, (dfind current q).isSome ↔ ∃ l0 ∈ lines0, l0.category_id = q)
    (st : List BudgetLine × ℕ) (c : Category)
    (hbase : linesFor c.id st.1 = linesFor c.id lines0) :
    (form c.id = SubVal.blank →
      linesFor c.id (budgetStep current form st c).1 = linesFor c.id lines0) ∧
    (∀ a, form c.id = SubVal.amount a → 0 < a →
      (linesFor c.id (budgetStep current form st c).1).map (fun l => l.amount) =
        [a]) ∧
    (∀ a, form c.id = SubVal.amount a → a ≤ 0 →
      linesFor c.id (budgetStep current form st c).1 = []) ∧
    (form c.id = SubVal.bad →
      linesFor c.id (budgetStep current form st c).1 = []) := by
  have hsome : ∀ lid, dfind current c.id = some lid →
      ∃ l0, linesFor c.id st.1 = [l0] ∧ l0.category_id = c.id ∧ l0.id = lid := by
    intro lid hfind
    obtain ⟨l0, hm, hc, hi⟩ := hcur c.id lid hfind
    refine ⟨l0, ?_, hc, hi⟩
    rw [hbase]
    exact filter_singleton_of_nodup lines0 hlcat l0 hm hc
  have hnone : dfind current c.id = none → linesFor c.id st.1 = [] := by
    intro hfind
    rw [hbase]
    unfold linesFor
    rw [List.filter_eq_nil_iff]
    intro y hy
    simp only [decide_eq_true_eq]
    intro hyk
    have : (dfind current c.id).isSome := (hcurS c.id).2 ⟨y, hy, hyk⟩
    rw [hfind] at this
    simp at this
  have hdel : ∀ lid, dfind current c.id = some lid →
      linesFor c.id (st.1.filter (fun l => decide (l.id ≠ lid))) = [] := by
    intro lid hfind
    obtain ⟨l0, hl0, hc, hi⟩ := hsome lid hfind
    unfold linesFor
    rw [List.filter_eq_nil_iff]
    intro y hy
    simp only [decide_eq_true_eq]
    intro hyk
    have hyst : y ∈ st.1 := List.mem_of_mem_filter hy
    have hymem : y ∈ linesFor c.id st.1 := by
      unfold linesFor
      rw [List.mem_filter]
      exact ⟨hyst, by simpa using hyk⟩
    rw [hl0, List.mem_singleton] at hymem
    subst hymem
    rw [List.mem_filter] at hy
    have := hy.2
    rw [hi] at this
    simp at this
  refine ⟨?_, ?_, ?_, ?_⟩
  · intro hform
    unfold budgetStep
    rw [hform]
    exact hbase
  · intro a hform h0
    unfold budgetStep
    rw [hform]
    simp only [subAmt, if_pos h0]
    cases hfind : dfind current c.id with
    | some lid =>
      obtain ⟨l0, hl0, hc, hi⟩ := hsome lid hfind
      have hcomm : linesFor c.id (st.1.map (fun l =>
          if l.id = lid then ⟨l.id, l.category_id, a⟩ else l)) =
          (linesFor c.id st.1).map (fun l =>
            if l.id = lid then ⟨l.id, l.category_id, a⟩ else l) := by
        unfold linesFor
        apply filter_map_comm
        intro x
        by_cases hxid : x.id = lid <;> simp [hxid]
      rw [hcomm, hl0]
      rw [List.map_cons, List.map_nil, List.map_cons, List.map_nil]
      rw [if_pos hi]
    | none =>
      have h1 := hnone hfind
      unfold linesFor at h1 ⊢
      rw [List.filter_append, h1]
      simp
  · intro a hform h0
    unfold budgetStep
    rw [hform]
    simp only [subAmt, if_neg (not_lt.2 h0)]
    cases hfind : dfind current c.id with
    | some lid => exact hdel lid hfind
    | none => exact hnone hfind
  · intro hform
    unfold budgetStep
    rw [hform]
    simp only [subAmt, if_neg (by norm_num : ¬(0:ℚ) < 0)]
    cases hfind : dfind current c.id with
    | some lid => exact hdel lid hfind
    | none => exact hnone hfind

/-- C5 (corrected).  The budget editor behaves as claimed **for expense
categories**: a blank field leaves the category's lines unchanged, a positive
parsed amount leaves exactly one line holding that amount, a non-positive or
unparsable value leaves no line.  Submissions for income categories are
ignored by the loop (it iterates over expense categories only), so their
lines are untouched, as are categories absent from the catalogue.
Hypotheses: distinct category ids (primary keys), at most one pre-existing
line per category, distinct line ids, and a fresh-id counter above every
existing line id. -/
theorem claim5_budget_editor :
    ∀ (cats : List Category) (form : ℕ → SubVal) (lines0 : List BudgetLine)
      (fresh0 : ℕ),
      (cats.map (fun c => c.id)).Nodup →
      (lines0.map (fun l => l.category_id)).Nodup →
      (lines0.map (fun l => l.id)).Nodup →
      (∀ l ∈ lines0, l.id < fresh0) →
      (∀ c ∈ cats, (sLower (sTrim c.tipo) == "ingreso") = false →
        ((form c.id = SubVal.blank →
          linesFor c.id (budget_index_post cats form lines0 fresh0) =
            linesFor c.id lines0) ∧
        (∀ a, form c.id = SubVal.amount a → 0 < a →
          (linesFor c.id (budget_index_post cats form lines0 fresh0)).map
            (fun l => l.amount) = [a]) ∧
        (∀ a, form c.id = SubVal.amount a → a ≤ 0 →
          linesFor c.id (budget_index_post cats form lines0 fresh0) = []) ∧
        (form c.id = SubVal.bad →
          linesFor c.id (budget_index_post cats form lines0 fresh0) = []))) ∧
      (∀ c ∈ cats, (sLower (sTrim c.tipo) == "ingreso") = true →
        linesFor c.id (budget_index_post cats form lines0 fresh0) =
          linesFor c.id lines0) ∧
      (∀ k, (∀ c ∈ cats, ¬c.id = k) →
        linesFor k (budget_index_post cats form lines0 fresh0) =
          linesFor k lines0) := by
  intro cats form lines0 fresh0 hcat hlcat hlid hfr
  have hcur := current_spec_find lines0
  have hcurS := current_spec_isSome lines0
  have hinv0 : stepINV lines0 fresh0 (lines0, fresh0) :=
    ⟨hfr, le_refl _, fun l hl _ => ⟨l, hl, rfl, rfl⟩⟩
  have hmemcats : ∀ c ∈ (sortByNombre Category.nombre cats).filter
      (fun c => !(sLower (sTrim c.tipo) == "ingreso")), c ∈ cats := by
    intro c hc
    have := List.mem_of_mem_filter hc
    unfold sortByNombre at this
    exact List.mem_mergeSort.1 this
  have hgnodup : (((sortByNombre Category.nombre cats).filter
      (fun c => !(sLower (sTrim c.tipo) == "ingreso"))).map
        (fun c => c.id)).Nodup := by
    have hperm : List.Perm
        ((sortByNombre Category.nombre cats).map (fun c => c.id))
        (cats.map (fun c => c.id)) :=
      (List.mergeSort_perm cats _).map _
    have hsnodup : ((sortByNombre Category.nombre cats).map
        (fun c => c.id)).Nodup := hperm.nodup_iff.2 hcat
    exact List.Sublist.nodup
      (List.Sublist.map _ (List.filter_sublist _)) hsnodup
  refine ⟨?_, ?_, ?_⟩
  · -- expense categories: the three-way behaviour
    intro c hc hing
    have hcmem : c ∈ (sortByNombre Category.nombre cats).filter
        (fun c => !(sLower (sTrim c.tipo) == "ingreso")) := by
      rw [List.mem_filter]
      refine ⟨?_, by rw [hing]; rfl⟩
      unfold sortByNombre
      exact List.mem_mergeSort.2 hc
    obtain ⟨s, t, hsplit⟩ := List.append_of_mem hcmem
    have hids : (s.map (fun c => c.id)).Nodup ∧ c.id ∉ s.map (fun c => c.id) ∧
        c.id ∉ t.map (fun c => c.id) := by
      rw [hsplit, List.map_append, List.map_cons, List.nodup_append] at hgnodup
      obtain ⟨h1, h2, h3⟩ := hgnodup
      rw [List.nodup_cons] at h2
      refine ⟨h1, ?_, h2.1⟩
      intro hmem
      exact (List.disjoint_left.1 h3) hmem (List.mem_cons_self _ _)
    have hs_ne : ∀ x ∈ s, ¬x.id = c.id := by
      intro x hx hxe
      exact hids.2.1 (hxe ▸ List.mem_map_of_mem (fun c => c.id) hx)
    have ht_ne : ∀ x ∈ t, ¬x.id = c.id := by
      intro x hx hxe
      exact hids.2.2 (hxe ▸ List.mem_map_of_mem (fun c => c.id) hx)
    have hpost : budget_index_post cats form lines0 fresh0 =
        (t.foldl (budgetStep
            (lines0.foldl (fun m bl => dset m bl.category_id bl.id) []) form)
          (budgetStep
            (lines0.foldl (fun m bl => dset m bl.category_id bl.id) []) form
            (s.foldl (budgetStep
              (lines0.foldl (fun m bl => dset m bl.category_id bl.id) []) form)
              (lines0, fresh0)) c)).1 := by
      unfold budget_index_post
      rw [hsplit, List.foldl_append, List.foldl_cons]
    obtain ⟨hbase1, hinv1⟩ := budgetFold_frame form hlid hfr hcur s
      (lines0, fresh0) c.id hinv0 hs_ne
    have heff := budgetStep_effect form hlcat hcur hcurS
      (s.foldl (budgetStep
        (lines0.foldl (fun m bl => dset m bl.category_id bl.id) []) form)
        (lines0, fresh0)) c hbase1
    have hinv2 := budgetStep_inv
      (lines0.foldl (fun m bl => dset m bl.category_id bl.id) []) form _ c hinv1
    obtain ⟨hbase3, -⟩ := budgetFold_frame form hlid hfr hcur t _ c.id hinv2 ht_ne
    rw [hpost]
    refine ⟨?_, ?_, ?_, ?_⟩
    · intro hform
      rw [hbase3]
      exact heff.1 hform
    · intro a hform h0
      rw [hbase3]
      exact heff.2.1 a hform h0
    · intro a hform h0
      rw [hbase3]
      exact heff.2.2.1 a hform h0
    · intro hform
      rw [hbase3]
      exact heff.2.2.2 hform
  · -- income categories are never touched
    intro c hc hing
    have hne : ∀ x ∈ (sortByNombre Category.nombre cats).filter
        (fun c => !(sLower (sTrim c.tipo) == "ingreso")), ¬x.id = c.id := by
      intro x hx hxe
      have hxc : x = c :=
        List.inj_on_of_nodup_map hcat (hmemcats x hx) hc hxe
      rw [List.mem_filter] at hx
      rw [hxc, hing] at hx
      exact absurd hx.2 (by simp)
    exact (budgetFold_frame form hlid hfr hcur _ (lines0, fresh0) c.id hinv0
      hne).1
  · -- categories outside the catalogue are never touched
    intro k hk
    have hne : ∀ x ∈ (sortByNombre Category.nombre cats).filter
        (fun c => !(sLower (sTrim c.tipo) == "ingreso")), ¬x.id = k :=
      fun x hx => hk x (hmemcats x hx)
    exact (budgetFold_frame form hlid hfr hcur _ (lines0, fresh0) k hinv0
      hne).1

/-- Concrete input refuting C5 as stated: a submission for the income
category `Salario` (id 1) with positive parsed amount 50. -/
def c5cexCats : List Category := [⟨1, "Salario", "ingreso"⟩]

def c5cexForm : ℕ → SubVal :=
  fun k => if k = 1 then SubVal.amount 50 else SubVal.blank

/-- C5 counterexample: category 1 is present in the submission with parsed
amount `50 > 0`, yet no budget line is created, because the editor's loop
only visits expense categories — contradicting the claim's "for each
category present in the submission ... a parsed amount > 0 creates a budget
line". -/
theorem claim5_counterexample :
    c5cexForm 1 = SubVal.amount 50 ∧ (0 : ℚ) < 50 ∧
      budget_index_post c5cexCats c5cexForm [] 1 = [] := by
  refine ⟨rfl, by norm_num, ?_⟩
  simp [budget_index_post, sortByNombre, c5cexCats, List.mergeSort,
    show (sLower (sTrim "ingreso") == "ingreso") = true from by decide]

/-- Concrete data for the C5 witness: one expense category with an existing
line of 100, to which amount `0` is submitted. -/
def c5cats : List Category := [⟨1, "Comida", "gasto"⟩]

def c5lines : List BudgetLine := [⟨1, 1, 100⟩]

def c5form : ℕ → SubVal :=
  fun k => if k = 1 then SubVal.amount 0 else SubVal.blank

/-- C5 witness: submitting `0` for an expense category deletes its existing
budget line. -/
theorem claim5_witness :
    linesFor 1 (budget_index_post c5cats c5form c5lines 2) = [] := by
  have h := claim5_budget_editor c5cats c5form c5lines 2 (by decide) (by decide)
    (by decide) (by decide)
  exact (h.1 ⟨1, "Comida", "gasto"⟩ (List.mem_cons_self _ _)
    (by decide)).2.2.1 0 rfl (le_refl 0)

end Presupuesto
